import Mathlib

/-!
Verification of the attack-test synthesis and sandboxed execution subsystem
(`agent/src/services/patchGenerator.ts`, `agent/src/services/simulationService.ts`).

Conventions of the shallow embedding:
* TypeScript strings are Lean `String`; optional fields (`x?: string`) are
  `Option String`, and JavaScript truthiness of such a field (`undefined` and
  `""` are falsy) is `optTruthy`.
* `Array.prototype.join(sep)` is `jsJoin sep`.
* Template interpolation of a possibly-`undefined` value renders the string
  `"undefined"`, as in JavaScript (`jsStr`).
* Brace characters inside Lean string literals are written with the escapes
  `\x7b` (`u+007B`) and `\x7d` (`u+007D`).
-/

namespace Prophet

/-- JS truthiness of an optional string field: `undefined` and `""` are falsy. -/
def optTruthy : Option String → Bool
  | none => false
  | some s => if s = "" then false else true

/-- JS template interpolation of a possibly-`undefined` string. -/
def jsStr : Option String → String
  | none => "undefined"
  | some s => s

/-- `Array.prototype.join(sep)`. -/
def jsJoin (sep : String) : List String → String
  | [] => ""
  | [a] => a
  | a :: b :: t => a ++ sep ++ jsJoin sep (b :: t)

/-- `String.prototype.startsWith(pre)`. -/
def jsStartsWith (s pre : String) : Bool := pre.data.isPrefixOf s.data

/-- JS `\w` character class (ASCII word characters). -/
def isWordChar (c : Char) : Bool := c.isAlpha || c.isDigit || c == '_'

/-- JS `\s` character class (whitespace). -/
def jsIsSpace (c : Char) : Bool := c.isWhitespace

/-! ## Data model (`patchGenerator.ts`, sections 1 and 2) -/

inductive Mutability
  | mpure | mview | mpayable | mnonpayable
deriving DecidableEq, Repr

structure Param where
  type : String
  name : String
deriving DecidableEq, Repr

structure FunctionSig where
  name : String
  params : List Param
  mutability : Mutability
  returns : String
deriving DecidableEq, Repr

structure ContractInterface where
  name : String
  constructorParams : List Param
  constructorPayable : Bool
  functions : List FunctionSig
deriving DecidableEq, Repr

/-- The `as` field of a `CallStep`. -/
inductive Actor
  | owner | user | thief | attacker_contract
deriving DecidableEq, Repr

structure CallStep where
  as : Actor
  call : String
  args : Option (List String) := none
  value : Option String := none
deriving DecidableEq, Repr

inductive AssertType
  | assertEq | assertLt | assertGt | assertTrue
deriving DecidableEq, Repr

structure Assertion where
  type : AssertType
  left : String
  right : Option String := none
  message : Option String := none
deriving DecidableEq, Repr

structure TestPlan where
  name : String
  description : Option String := none
  setup : List CallStep
  attack : List CallStep
  assertions : List Assertion
deriving DecidableEq, Repr

structure AttackPlan where
  needsAttacker : Bool
  attackerReentersFunction : Option String := none
  tests : List TestPlan
deriving DecidableEq, Repr

/-! ## Plan validator (`validatePlan`, patchGenerator.ts sect. 4) -/

/-- The set of valid function names, `new Set(iface.functions.map(f => f.name))`. -/
def fnNames (i : ContractInterface) : List String := i.functions.map (·.name)

/-- `new Map(iface.functions.map(f => [f.name, f])).get(n)`: building a JS `Map`
from a list of pairs lets the *last* entry with a given key win, so the lookup
finds the last matching signature.  The lookup succeeds exactly when
`n ∈ fnNames i`, since `Set` and `Map` are built from the same list. -/
def fnMapGet (i : ContractInterface) (n : String) : Option FunctionSig :=
  i.functions.reverse.find? (fun f => f.name == n)

/-- All capture groups of `expr.matchAll(/target\.(\w+)\s*\(/g)`.
`tryTargetCall` attempts a match at the current position; on failure the scan
advances one character (the pattern admits no useful backtracking: after the
greedy `\w+` the next character is a non-word character, so shortening `\w+`
can never make the required `(` appear). -/
def tryTargetCall (l : List Char) : Option (String × List Char) :=
  if "target.".data.isPrefixOf l then
    let r1 := l.drop 7
    let nm := r1.takeWhile isWordChar
    let r2 := r1.dropWhile isWordChar
    if nm.isEmpty then none
    else
      match r2.dropWhile jsIsSpace with
      | '(' :: r4 => some (⟨nm⟩, r4)
      | _ => none
  else none

theorem tryTargetCall_length {l : List Char} {n : String} {rest : List Char}
    (h : tryTargetCall l = some (n, rest)) : rest.length < l.length := by
  unfold tryTargetCall at h
  split at h
  · rename_i hpre
    simp only at h
    split at h
    · exact absurd h (by simp)
    · split at h
      · rename_i heq
        cases h
        have h2 : ((l.drop 7).dropWhile isWordChar).length ≤ (l.drop 7).length :=
          (List.dropWhile_sublist isWordChar).length_le
        have h3 : (((l.drop 7).dropWhile isWordChar).dropWhile jsIsSpace).length ≤
            ((l.drop 7).dropWhile isWordChar).length :=
          (List.dropWhile_sublist jsIsSpace).length_le
        have h4 : (((l.drop 7).dropWhile isWordChar).dropWhile jsIsSpace).length =
            rest.length + 1 := by rw [heq]; simp
        have h5 : 7 ≤ l.length := by
          have := (List.isPrefixOf_iff_prefix.mp hpre).length_le
          simpa using this
        have h6 : (l.drop 7).length = l.length - 7 := List.length_drop 7 l
        omega
      · exact absurd h (by simp)
  · exact absurd h (by simp)

/-- The scan loop of `matchAll(/target\.(\w+)\s*\(/g)`, with explicit fuel so
the kernel can evaluate it.  Each step consumes at least one character
(`tryTargetCall_length`), so `fuel = l.length` (as used by `scanTargetCalls`)
never runs out before the scan completes. -/
def scanTargetCallsAux : Nat → List Char → List String
  | 0, _ => []
  | fuel + 1, l =>
    match tryTargetCall l with
    | some (n, rest) => n :: scanTargetCallsAux fuel rest
    | none =>
      match l with
      | [] => []
      | _ :: t => scanTargetCallsAux fuel t

def scanTargetCalls (l : List Char) : List String := scanTargetCallsAux l.length l

/-- `assertionExprValid(expr)`: every `target.<id>(` occurrence references a
known function name. -/
def assertionExprValid (i : ContractInterface) (expr : String) : Bool :=
  (scanTargetCalls expr.data).all (fun n => decide (n ∈ fnNames i))

/-- `validAssertion(a)` — note `!a.right` uses JS truthiness. -/
def validAssertion (i : ContractInterface) (a : Assertion) : Bool :=
  assertionExprValid i a.left &&
    (!(optTruthy a.right) || assertionExprValid i (a.right.getD ""))

/-- `validCall(step)`: keep `attacker_contract`/`attack` steps unchanged,
drop steps whose `call` is unknown, strip a (truthy) `value` from calls to
non-payable functions. -/
def validCall (i : ContractInterface) (step : CallStep) : Option CallStep :=
  if step.as = Actor.attacker_contract ∧ step.call = "attack" then some step
  else
    match fnMapGet i step.call with
    | none => none
    | some fn =>
      if optTruthy step.value ∧ fn.mutability ≠ Mutability.mpayable then
        some { step with value := none }
      else some step

/-- `t.name.charAt(0).toUpperCase() + t.name.slice(1)` (at the character level). -/
def capFirst (s : String) : String :=
  match s.data with
  | [] => ""
  | c :: rest => ⟨c.toUpper :: rest⟩

/-- Test-name normalization inside `validatePlan`. -/
def normTestName (n : String) : String :=
  if jsStartsWith n "test" then n else "test" ++ capFirst n

/-- The per-test transformation of `validatePlan` (the body of `plan.tests.map`). -/
def transformTest (i : ContractInterface) (t : TestPlan) : TestPlan :=
  { t with
    name := normTestName t.name
    setup := t.setup.filterMap (validCall i)
    attack := t.attack.filterMap (validCall i)
    assertions := t.assertions.filter (validAssertion i) }

/-- `t.attack.length > 0 || t.setup.length > 0`. -/
def keepTest (t : TestPlan) : Bool := !t.attack.isEmpty || !t.setup.isEmpty

/-- `validatePlan(plan, iface)`. -/
def validatePlan (plan : AttackPlan) (i : ContractInterface) : AttackPlan :=
  let tests := (plan.tests.map (transformTest i)).filter keepTest
  if optTruthy plan.attackerReentersFunction ∧
      (plan.attackerReentersFunction.getD "") ∉ fnNames i then
    { needsAttacker := false, attackerReentersFunction := none, tests := tests }
  else
    { plan with tests := tests }

/-! ## Template code generator (`patchGenerator.ts`, section 5) -/

/-- `step.as === 'owner' ? 'owner' : step.as === 'thief' ? 'thief' : 'user'`. -/
def actorName : Actor → String
  | Actor.owner => "owner"
  | Actor.thief => "thief"
  | _ => "user"

/-- `const argsStr = step.args?.join(', ') ?? ''`. -/
def callArgsStr (step : CallStep) : String := jsJoin ", " (step.args.getD [])

/-- `const valueStr = step.value ? `{value: ${step.value}}` : ''`. -/
def callValueStr (step : CallStep) : String :=
  if optTruthy step.value then "\x7bvalue: " ++ step.value.getD "" ++ "\x7d" else ""

/-- `generateCallCode(step, iface)`.  The source looks up
`iface.functions.find(f => f.name === step.call)` but renders the same string
whether or not the lookup succeeds, so the lookup does not appear here. -/
def generateCallCode (step : CallStep) (iface : ContractInterface) : String :=
  if step.as = Actor.attacker_contract then
    if step.call = "attack" then "        attacker.attack" ++ callValueStr step ++ "();"
    else "        attacker.attackCustom" ++ callValueStr step ++ "();"
  else
    "        vm.prank(" ++ actorName step.as ++ ");" ++
      "\n        target." ++ step.call ++ callValueStr step ++ "(" ++
      callArgsStr step ++ ");"

/-- `const msg = a.message ? `, "${a.message}"` : ''`. -/
def assertionMsgStr (a : Assertion) : String :=
  if optTruthy a.message then ", \"" ++ a.message.getD "" ++ "\"" else ""

/-- `generateAssertionCode(a)` (the `default:` arm of the `switch` is
unreachable for the closed `AssertType`). -/
def generateAssertionCode (a : Assertion) : String :=
  match a.type with
  | AssertType.assertTrue => "        assertTrue(" ++ a.left ++ assertionMsgStr a ++ ");"
  | AssertType.assertEq =>
    "        assertEq(" ++ a.left ++ ", " ++ jsStr a.right ++ assertionMsgStr a ++ ");"
  | AssertType.assertLt =>
    "        assertLt(" ++ a.left ++ ", " ++ jsStr a.right ++ assertionMsgStr a ++ ");"
  | AssertType.assertGt =>
    "        assertGt(" ++ a.left ++ ", " ++ jsStr a.right ++ assertionMsgStr a ++ ");"

/-- The per-parameter argument heuristic inside `generateAttackerContract`. -/
def attackerArg (p : Param) : String :=
  if jsStartsWith p.type "uint" then "1 ether"
  else if p.type = "address" then "address(this)"
  else if p.type = "bool" then "true"
  else "0"

/-- `const fn = iface.functions.find(f => f.name === reentersFunction)`. -/
def attackerFn (iface : ContractInterface) (reentersFunction : String) :
    Option FunctionSig :=
  iface.functions.find? (fun f => f.name == reentersFunction)

/-- `const callArgs = fn?.params.map(...).join(', ') ?? ''`. -/
def attackerCallArgs (iface : ContractInterface) (reentersFunction : String) : String :=
  match attackerFn iface reentersFunction with
  | some f => jsJoin ", " (f.params.map attackerArg)
  | none => ""

/-- `const valueSnippet = fn?.mutability === 'payable' ? '{value: 1 ether}' : ''`. -/
def attackerValueSnippet (iface : ContractInterface) (reentersFunction : String) :
    String :=
  if (attackerFn iface reentersFunction).map (·.mutability) =
      some Mutability.mpayable then "\x7bvalue: 1 ether\x7d"
  else ""

/-- The optional `target.deposit{value: msg.value}();` line. -/
def attackerDepositLine (iface : ContractInterface) : String :=
  if (iface.functions.find? (fun f =>
      f.name == "deposit" && f.mutability == Mutability.mpayable)).isSome then
    "\n        target.deposit\x7bvalue: msg.value\x7d();"
  else ""

/-- `generateAttackerContract(iface, reentersFunction)`. -/
def generateAttackerContract (iface : ContractInterface) (reentersFunction : String) :
    String :=
  "contract Attacker \x7b\n    " ++ iface.name ++
    " public immutable target;\n    uint256 public count;\n\n    constructor(address payable _target) \x7b\n        target = " ++
    iface.name ++
    "(payable(_target));\n    \x7d\n\n    function attack() external payable \x7b" ++
    attackerDepositLine iface ++ "\n        target." ++ reentersFunction ++
    attackerValueSnippet iface reentersFunction ++ "(" ++
    attackerCallArgs iface reentersFunction ++
    ");\n    \x7d\n\n    receive() external payable \x7b\n        if (count < 5 && address(target).balance >= 1 ether) \x7b\n            count++;\n            target." ++
    reentersFunction ++ attackerValueSnippet iface reentersFunction ++ "(" ++
    attackerCallArgs iface reentersFunction ++
    ");\n        \x7d\n    \x7d\n\n    fallback() external payable \x7b\x7d\n\x7d"

/-- The per-constructor-parameter heuristic inside `generateSetUp`. -/
def ctorArg (p : Param) : String :=
  if p.type = "address" ∨ p.type = "address payable" then "owner"
  else if jsStartsWith p.type "uint" then "1000"
  else if p.type = "string memory" then "\"test\""
  else if p.type = "bool" then "true"
  else if jsStartsWith p.type "bytes" then "\"\""
  else "0"

/-- `const ctorArgs = iface.constructorParams.map(...).join(', ')`. -/
def setUpCtorArgs (iface : ContractInterface) : String :=
  jsJoin ", " (iface.constructorParams.map ctorArg)

/-- `const valueStr = iface.constructorPayable ? '{value: 1 ether}' : ''`. -/
def setUpValueStr (iface : ContractInterface) : String :=
  if iface.constructorPayable then "\x7bvalue: 1 ether\x7d" else ""

/-- `generateSetUp(iface, needsAttacker)`. -/
def generateSetUp (iface : ContractInterface) (needsAttacker : Bool) : String :=
  "    function setUp() public \x7b\n        vm.deal(owner, 100 ether);\n        vm.deal(user, 100 ether);\n        vm.deal(thief, 100 ether);\n        vm.prank(owner);\n        target = new " ++
    iface.name ++ setUpValueStr iface ++ "(" ++ setUpCtorArgs iface ++ ");" ++
    (if needsAttacker then
      "\n        attacker = new Attacker(payable(address(target)));\n        vm.deal(address(attacker), 10 ether);"
    else "") ++ "\n    \x7d"

/-- The `lines` array of `generateTestFunction(test, iface)`. -/
def testFnLines (test : TestPlan) (iface : ContractInterface) : List String :=
  ["    function " ++ test.name ++ "() public \x7b"] ++
    (if optTruthy test.description then ["        // " ++ test.description.getD ""]
     else []) ++
    test.setup.map (generateCallCode · iface) ++
    (if !test.setup.isEmpty && !test.attack.isEmpty then [""] else []) ++
    test.attack.map (generateCallCode · iface) ++
    (if !test.attack.isEmpty && !test.assertions.isEmpty then [""] else []) ++
    test.assertions.map generateAssertionCode ++
    ["    \x7d"]

/-- `generateTestFunction(test, iface)`. -/
def generateTestFunction (test : TestPlan) (iface : ContractInterface) : String :=
  jsJoin "\n" (testFnLines test iface)

/-- Whether the attacker helper contract is emitted:
`plan.needsAttacker && plan.attackerReentersFunction` (JS truthiness). -/
def wantsAttacker (plan : AttackPlan) : Bool :=
  plan.needsAttacker && optTruthy plan.attackerReentersFunction

/-- The `parts` array of `generateSolidityFromPlan(plan, iface)`. -/
def solidityParts (plan : AttackPlan) (iface : ContractInterface) : List String :=
  ["// SPDX-License-Identifier: MIT", "pragma solidity ^0.8.20;", "",
   "import \"forge-std/Test.sol\";", "import \"../src/" ++ iface.name ++ ".sol\";",
   ""] ++
    (if wantsAttacker plan then
      [generateAttackerContract iface (plan.attackerReentersFunction.getD ""), ""]
    else []) ++
    ["contract " ++ iface.name ++ "Test is Test \x7b",
     "    " ++ iface.name ++ " public target;"] ++
    (if wantsAttacker plan then ["    Attacker public attacker;"] else []) ++
    ["    address public owner = address(0x1);",
     "    address public user = address(0x2);",
     "    address public thief = address(0x3);", "",
     generateSetUp iface (wantsAttacker plan), ""] ++
    (plan.tests.flatMap fun t => [generateTestFunction t iface, ""]) ++
    ["\x7d"]

/-- `generateSolidityFromPlan(plan, iface)` = `parts.join('\n')`. -/
def generateSolidityFromPlan (plan : AttackPlan) (iface : ContractInterface) :
    String :=
  jsJoin "\n" (solidityParts plan iface)

/-! ## Interface extractor (`parseContractInterface`)

Each JavaScript regex is embedded as an explicit scanner over `List Char`.
`exec`/`match` semantics: the engine tries to match at each successive start
position; on failure it advances one character, and with the `g` flag it
resumes after the end of the previous match.  Greedy sub-patterns over
*disjoint* character classes admit no productive backtracking, so those
scanners are deterministic; the one regex needing real backtracking (the
public-state-variable regex) implements the engine's backtracking order
explicitly.  `\w` is `[A-Za-z0-9_]` (`isWordChar`); `\s` is modelled by
`Char.isWhitespace`.  Scanners take explicit fuel so the kernel can evaluate
them; every step consumes at least one character, so `fuel = input.length`
suffices. -/

/-- `String.prototype.split` with a one-character separator (the semantics of
`buffer.split('\n')`; `"".split('\n') = [""]`, `"a\n".split('\n') = ["a",""]`). -/
def splitOnChar (c : Char) : List Char → List (List Char)
  | [] => [[]]
  | x :: t =>
    if x = c then [] :: splitOnChar c t
    else
      match splitOnChar c t with
      | h :: rest => (x :: h) :: rest
      | [] => [[x]]

/-- `String.prototype.trim()`. -/
def jsTrim (s : String) : String :=
  ⟨((s.data.dropWhile jsIsSpace).reverse.dropWhile jsIsSpace).reverse⟩

/-- One word-boundary-delimited occurrence of `w` at the current position,
given the previous character (`\bw\b`). -/
def wordAt (w : List Char) (prev : Option Char) (l : List Char) : Bool :=
  w.isPrefixOf l &&
    (match prev with | none => true | some c => !isWordChar c) &&
    (match l.drop w.length with | [] => true | c :: _ => !isWordChar c)

def hasWordAux (w : List Char) : Option Char → List Char → Bool
  | prev, [] => wordAt w prev []
  | prev, c :: t => wordAt w prev (c :: t) || hasWordAux w (some c) t

/-- `/\bw\b/.test(s)`. -/
def hasWord (w s : String) : Bool := hasWordAux w.data none s.data

/-- `parseMutability(sig)`. -/
def parseMutability (sig : String) : Mutability :=
  if hasWord "payable" sig && !hasWord "nonpayable" sig && !hasWord "view" sig &&
      !hasWord "pure" sig then Mutability.mpayable
  else if hasWord "view" sig then Mutability.mview
  else if hasWord "pure" sig then Mutability.mpure
  else Mutability.mnonpayable

/-- `trimmed.split(/\s+/)` for an input without leading or trailing
whitespace (the only way `parseParams` uses it). -/
def wsSplitAux : Nat → List Char → List (List Char)
  | 0, _ => []
  | fuel + 1, l =>
    let w := l.takeWhile (fun c => !jsIsSpace c)
    let r := (l.dropWhile (fun c => !jsIsSpace c)).dropWhile jsIsSpace
    if r.isEmpty then [w] else w :: wsSplitAux fuel r

def wsSplit (l : List Char) : List (List Char) :=
  if l.isEmpty then [[]] else wsSplitAux l.length l

/-- The body of `parseParams`'s `map((p, i) => ...)`. -/
def parseParamsAux : Nat → List (List Char) → List Param
  | _, [] => []
  | i, p :: rest =>
    let parts := wsSplit (jsTrim (String.mk p)).data
    (if 2 ≤ parts.length then
      { type := jsJoin " " (parts.dropLast.map String.mk),
        name := String.mk ((parts.getLast?).getD []) }
    else
      { type := String.mk ((parts.head?).getD []), name := "arg" ++ toString i }) ::
      parseParamsAux (i + 1) rest

/-- `parseParams(paramStr)`. -/
def parseParams (paramStr : String) : List Param :=
  if jsTrim paramStr = "" then []
  else parseParamsAux 0 (splitOnChar ',' paramStr.data)

/-- Attempted match of `/returns\s*\(([^)]*)\)/` at the current position. -/
def tryReturns (l : List Char) : Option (List Char) :=
  if "returns".data.isPrefixOf l then
    match (l.drop 7).dropWhile jsIsSpace with
    | '(' :: r2 =>
      match r2.dropWhile (fun c => c != ')') with
      | ')' :: _ => some (r2.takeWhile (fun c => c != ')'))
      | _ => none
    | _ => none
  else none

def findReturnsAux : List Char → Option (List Char)
  | [] => none
  | c :: t =>
    match tryReturns (c :: t) with
    | some r => some r
    | none => findReturnsAux t

/-- `parseReturns(sig)`. -/
def parseReturns (sig : String) : String :=
  match findReturnsAux sig.data with
  | some r => jsTrim (String.mk r)
  | none => ""

/-- Attempted match of `/function\s+(\w+)\s*\(([^)]*)\)\s*([^{;]*)/` at the
current position, returning `(name, params, qualifiers, rest-after-match)`.
All greedy runs here are over classes disjoint from the following required
character, so the regex admits no productive backtracking. -/
def tryFn (l : List Char) :
    Option ((List Char × List Char × List Char) × List Char) :=
  if "function".data.isPrefixOf l then
    let r0 := l.drop 8
    let r1 := r0.dropWhile jsIsSpace
    if (r0.takeWhile jsIsSpace).isEmpty then none
    else
      let nm := r1.takeWhile isWordChar
      if nm.isEmpty then none
      else
        match (r1.dropWhile isWordChar).dropWhile jsIsSpace with
        | [] => none
        | c :: r4 =>
          if c = '(' then
            match r4.dropWhile (fun c => c != ')') with
            | [] => none
            | c2 :: r6 =>
              if c2 = ')' then
                let r7 := r6.dropWhile jsIsSpace
                some ((nm, r4.takeWhile (fun c => c != ')'),
                  r7.takeWhile (fun c => c != '\x7b' && c != ';')),
                  r7.dropWhile (fun c => c != '\x7b' && c != ';'))
              else none
          else none
  else none

/-- The `while ((m = fnRegex.exec(source)) !== null)` loop. -/
def fnScanAux : Nat → List Char → List (List Char × List Char × List Char)
  | 0, _ => []
  | fuel + 1, l =>
    match tryFn l with
    | some (e, rest) => e :: fnScanAux fuel rest
    | none =>
      match l with
      | [] => []
      | _ :: t => fnScanAux fuel t

def fnScan (l : List Char) : List (List Char × List Char × List Char) :=
  fnScanAux l.length l

/-- Attempted match of `/\bcontract\s+(\w+)/` at the current position. -/
def tryContractName (prev : Option Char) (l : List Char) : Option (List Char) :=
  if "contract".data.isPrefixOf l &&
      (match prev with | none => true | some c => !isWordChar c) then
    let r0 := l.drop 8
    let nm := (r0.dropWhile jsIsSpace).takeWhile isWordChar
    if (r0.takeWhile jsIsSpace).isEmpty || nm.isEmpty then none else some nm
  else none

def findContractNameAux : Option Char → List Char → Option (List Char)
  | _, [] => none
  | prev, c :: t =>
    match tryContractName prev (c :: t) with
    | some nm => some nm
    | none => findContractNameAux (some c) t

def findContractName (l : List Char) : Option (List Char) :=
  findContractNameAux none l

/-- A match of `/constructor\s*\(([^)]*)\)[^{]*/`: the captured parameter list
and the whole matched text `m[0]`. -/
structure CtorMatch where
  params : List Char
  whole : List Char
deriving Repr

def tryCtor (l : List Char) : Option CtorMatch :=
  if "constructor".data.isPrefixOf l then
    let r0 := l.drop 11
    match r0.dropWhile jsIsSpace with
    | '(' :: r2 =>
      match r2.dropWhile (fun c => c != ')') with
      | ')' :: r4 =>
        some { params := r2.takeWhile (fun c => c != ')'),
               whole := "constructor".data ++ r0.takeWhile jsIsSpace ++
                 '(' :: r2.takeWhile (fun c => c != ')') ++
                 ')' :: r4.takeWhile (fun c => c != '\x7b') }
      | _ => none
    | _ => none
  else none

def findCtorAux : List Char → Option CtorMatch
  | [] => none
  | c :: t =>
    match tryCtor (c :: t) with
    | some m => some m
    | none => findCtorAux t

/-- `firstSome f l`: the first `some` among `f` applied to `l`'s elements
(the backtracking engine's candidate order). -/
def firstSome {α β : Type} (f : α → Option β) : List α → Option β
  | [] => none
  | a :: t =>
    match f a with
    | some b => some b
    | none => firstSome f t

/-- `(?:\s*\([^)]*\))?` — the optional parenthesized group, preferred when it
matches. -/
def tryOptGroup (l : List Char) : Option (List Char × List Char) :=
  match l.dropWhile jsIsSpace with
  | '(' :: r2 =>
    match r2.dropWhile (fun c => c != ')') with
    | ')' :: r4 =>
      some (l.takeWhile jsIsSpace ++ '(' :: r2.takeWhile (fun c => c != ')') ++
        [')'], r4)
    | _ => none
  | _ => none

/-- States reachable by iterating `(?:\s+\w+)`: after each iteration, the text
consumed so far and the rest. -/
def starChain : Nat → List Char → List (List Char × List Char)
  | 0, _ => []
  | fuel + 1, l =>
    let ws := l.takeWhile jsIsSpace
    let r1 := l.dropWhile jsIsSpace
    let w := r1.takeWhile isWordChar
    if ws.isEmpty || w.isEmpty then []
    else
      (ws ++ w, r1.drop w.length) ::
        (starChain fuel (r1.drop w.length)).map fun s => (ws ++ w ++ s.1, s.2)

/-- `\s+public\s+(\w+)\s*[;=]` — the deterministic tail of the variable regex,
returning the captured name and the rest after the whole match. -/
def tryVarTail (l : List Char) : Option (List Char × List Char) :=
  if (l.takeWhile jsIsSpace).isEmpty then none
  else
    let r1 := l.dropWhile jsIsSpace
    if "public".data.isPrefixOf r1 then
      let r2 := r1.drop 6
      if (r2.takeWhile jsIsSpace).isEmpty then none
      else
        let r3 := r2.dropWhile jsIsSpace
        let nm := r3.takeWhile isWordChar
        if nm.isEmpty then none
        else
          match (r3.drop nm.length).dropWhile jsIsSpace with
          | c :: r5 => if c = ';' || c = '=' then some (nm, r5) else none
          | [] => none
    else none

/-- The group-1 part `(\S+(?:\s*\([^)]*\))?(?:\s+\w+)*)` followed by the tail,
with the engine's backtracking order: longest `\S+` first, optional group
preferred, most `(?:\s+\w+)` iterations first. -/
def tryVarBody (l : List Char) :
    Option (List Char × List Char × List Char) :=
  firstSome (fun s1 =>
    let rest1 := l.drop s1.length
    firstSome (fun g =>
      firstSome (fun st =>
        match tryVarTail st.2 with
        | some (nm, rest4) => some (g.1 ++ st.1, nm, rest4)
        | none => none)
        ((starChain g.2.length g.2).reverse ++ [([], g.2)]))
      ((match tryOptGroup rest1 with
        | some (oc, rest2) => [(s1 ++ oc, rest2)]
        | none => []) ++ [(s1, rest1)]))
    (((l.takeWhile fun c => !jsIsSpace c).inits.filter fun x => !x.isEmpty).reverse)

/-- A whole-match attempt of the variable regex at a `^` position:
`^\s+` then the backtracking body. -/
def tryVarAt (l : List Char) : Option (List Char × List Char × List Char) :=
  if (l.takeWhile jsIsSpace).isEmpty then none
  else tryVarBody (l.dropWhile jsIsSpace)

/-- The `while ((vm = varRegex.exec(source)) !== null)` loop over the
multiline-anchored variable regex: matches may start only at the beginning of
the text or right after a newline, and scanning resumes after each match. -/
def varScanAux : Nat → Bool → List Char → List (List Char × List Char)
  | 0, _, _ => []
  | fuel + 1, atStart, l =>
    match l with
    | [] => []
    | c :: t =>
      if atStart then
        match tryVarAt (c :: t) with
        | some (g1, nm, rest) => (g1, nm) :: varScanAux fuel false rest
        | none => varScanAux fuel (c = '\n') t
      else varScanAux fuel (c = '\n') t

def varScan (l : List Char) : List (List Char × List Char) :=
  varScanAux l.length true l

/-- `/^mapping\s*\(/.test(rawType)`. -/
def isMappingType (l : List Char) : Bool :=
  if "mapping".data.isPrefixOf l then
    match (l.drop 7).dropWhile jsIsSpace with
    | '(' :: _ => true
    | _ => false
  else false

/-- Attempted match of `/mapping\s*\(\s*(\S+)/` at the current position. -/
def tryMappingKey (l : List Char) : Option (List Char) :=
  if "mapping".data.isPrefixOf l then
    match (l.drop 7).dropWhile jsIsSpace with
    | '(' :: r2 =>
      let k := (r2.dropWhile jsIsSpace).takeWhile fun c => !jsIsSpace c
      if k.isEmpty then none else some k
    | _ => none
  else none

def findMappingKeyAux : List Char → Option (List Char)
  | [] => none
  | c :: t =>
    match tryMappingKey (c :: t) with
    | some k => some k
    | none => findMappingKeyAux t

/-- The `FunctionSig` synthesized for one public state variable
(`rawType = vm[1].trim()`, mapping getters take the key and return uint256). -/
def getterSig (g1 varName : List Char) : FunctionSig :=
  { name := String.mk varName,
    params :=
      if isMappingType (jsTrim (String.mk g1)).data then
        match findMappingKeyAux (jsTrim (String.mk g1)).data with
        | some k => [{ type := String.mk k, name := "key" }]
        | none => []
      else [],
    mutability := Mutability.mview,
    returns :=
      if isMappingType (jsTrim (String.mk g1)).data then "uint256"
      else jsTrim (String.mk g1) }

/-- The public-state-variable loop: synthesize getters for variables whose
name is not already a captured function. -/
def addGetters : List FunctionSig → List (List Char × List Char) →
    List FunctionSig
  | fns, [] => fns
  | fns, (g1, varName) :: rest =>
    if fns.any (fun f => f.name == String.mk varName) then addGetters fns rest
    else addGetters (fns ++ [getterSig g1 varName]) rest

/-- The body of the `fnRegex` loop: skip `private`/`internal` qualifiers,
otherwise build the `FunctionSig` from the captured groups. -/
def fnSigOfEntry (e : List Char × List Char × List Char) : Option FunctionSig :=
  if hasWord "private" (String.mk e.2.2) || hasWord "internal" (String.mk e.2.2) then
    none
  else
    some { name := String.mk e.1, params := parseParams (String.mk e.2.1),
           mutability := parseMutability (String.mk e.2.2),
           returns := parseReturns (String.mk e.2.2) }

/-- `parseContractInterface(source)`. -/
def parseContractInterface (source : String) : ContractInterface :=
  { name :=
      match findContractName source.data with
      | some n => String.mk n
      | none => "Unknown"
    constructorParams :=
      match findCtorAux source.data with
      | some m => parseParams (String.mk m.params)
      | none => []
    constructorPayable :=
      match findCtorAux source.data with
      | some m => hasWord "payable" (String.mk m.whole)
      | none => false
    functions :=
      addGetters ((fnScan source.data).filterMap fnSigOfEntry)
        (varScan source.data) }

/-! ## A well-formed rendered source (the spec's notion of a declared function)

The claim speaks of "functions declared in the source"; the repository has no
grammar for that, so declaredness is modelled, following the spec's words, as
a rendered contract: a `contract` header followed by one conventional
declaration per function with an explicit visibility keyword. -/

inductive SrcVis
  | vpublic | vexternal | vprivate | vinternal
deriving DecidableEq, Repr

inductive SrcMut
  | mnone | mview | mpure | mpayable
deriving DecidableEq, Repr

structure SrcFunDecl where
  name : String
  params : List (String × String)
  visibility : SrcVis
  mutability : SrcMut
deriving DecidableEq, Repr

def renderVis : SrcVis → String
  | SrcVis.vpublic => "public"
  | SrcVis.vexternal => "external"
  | SrcVis.vprivate => "private"
  | SrcVis.vinternal => "internal"

def renderMut : SrcMut → String
  | SrcMut.mnone => ""
  | SrcMut.mview => " view"
  | SrcMut.mpure => " pure"
  | SrcMut.mpayable => " payable"

def renderParam (p : String × String) : String := p.1 ++ " " ++ p.2

def renderParams (ps : List (String × String)) : String :=
  jsJoin ", " (ps.map renderParam)

def renderFunDecl (d : SrcFunDecl) : String :=
  "    function " ++ d.name ++ "(" ++ renderParams d.params ++ ") " ++
    renderVis d.visibility ++ renderMut d.mutability ++ " \x7b\n    \x7d\n"

def strConcat : List String → String
  | [] => ""
  | s :: t => s ++ strConcat t

def renderContract (cname : String) (decls : List SrcFunDecl) : String :=
  "contract " ++ cname ++ " \x7b\n" ++ strConcat (decls.map renderFunDecl) ++ "\x7d\n"

/-- The `fnRegex` capture groups produced by a rendered declaration. -/
def entryOf (d : SrcFunDecl) : List Char × List Char × List Char :=
  (d.name.data, (renderParams d.params).data,
    (renderVis d.visibility ++ renderMut d.mutability).data ++ [' '])

/-- A plain lowercase identifier (nonempty, all lowercase ASCII letters). -/
def goodIdent (s : String) : Prop :=
  s.data ≠ [] ∧ ∀ c ∈ s.data, c.isLower = true

instance (s : String) : Decidable (goodIdent s) :=
  inferInstanceAs (Decidable (s.data ≠ [] ∧ ∀ c ∈ s.data, c.isLower = true))

def goodDecl (d : SrcFunDecl) : Prop :=
  goodIdent d.name ∧ ∀ p ∈ d.params, goodIdent p.1 ∧ goodIdent p.2

instance (d : SrcFunDecl) : Decidable (goodDecl d) :=
  inferInstanceAs (Decidable (goodIdent d.name ∧
    ∀ p ∈ d.params, goodIdent p.1 ∧ goodIdent p.2))


def declsC9 : List SrcFunDecl :=
  [{ name := "deposit", params := [], visibility := SrcVis.vexternal,
     mutability := SrcMut.mpayable },
   { name := "helper", params := [("uint", "a")], visibility := SrcVis.vinternal,
     mutability := SrcMut.mview },
   { name := "getbal", params := [("address", "who")], visibility := SrcVis.vpublic,
     mutability := SrcMut.mnone }]

def declC9 : SrcFunDecl :=
  { name := "getbal", params := [("address", "who")], visibility := SrcVis.vpublic,
    mutability := SrcMut.mnone }

/-! ## Sandbox Runner (`simulationService.ts`)

The runner spawns external processes and reads the filesystem; the embedding
makes those environments explicit oracles:

* a spawned process is observed through the ordered list of events Node
  delivers to `runCommand`'s handlers (`ProcEvent`);
* the AI fixer (`aiFixTestCode`) is an oracle `Nat → Option String` indexed by
  attempt (`none` = unavailable/declined);
* `fs.readdirSync(test).find(endsWith('.sol'))` is an oracle `Nat → Bool`;
* the filesystem is a list of existing paths, and every path written by
  `writeTempProject` and the fix loop lies under the per-request `tmpDir`
  (in the source every write goes through `path.join(tmpDir, ...)`).

Environment defaults are modelled as in the source with no environment
overrides: `DOCKER_IMAGE = "prophet-forge"`, `TIMEOUT_MS = 120000`,
`getForgeCommand() = "forge"`. -/

/-- `StreamChunk`; the optional `done?: boolean` is a `Bool` defaulting to `false`. -/
structure StreamChunk where
  chunk : String
  done : Bool := false
  exitCode : Option Int := none
  error : Option String := none
deriving DecidableEq, Repr

/-- Events delivered to `runCommand`'s process handlers, in order: `data` on
stdout/stderr, the `error` event (spawn failure), the `close` event (with
nullable exit code), and expiry of the kill timer. -/
inductive ProcEvent
  | data (s : String)
  | errEvt (msg : String)
  | closeEvt (code : Option Int)
  | timeoutEvt
deriving DecidableEq, Repr

def TIMEOUT_MS : Nat := 120000
def MAX_FIX_ATTEMPTS : Nat := 7

/-- The chunk pushed by the kill timer. -/
def timeoutChunk (timeoutMs : Nat) : StreamChunk :=
  { chunk := "[prophet] Timeout after " ++ toString (timeoutMs / 1000) ++
      "s — killing process\n"
    done := true, exitCode := some (-1), error := some "timeout" }

/-- One handler step of `runCommand`: from the current line buffer and an
event, the chunks pushed and the new buffer.  `data` is the line-buffered
`flush`; `error` and `close` push terminal chunks; the timer pushes its chunk
only when a positive `timeoutMs` was supplied (otherwise no timer was set). -/
def pushOfEvent (cmd : String) (timeoutMs : Option Nat) (buffer : String) :
    ProcEvent → List StreamChunk × String
  | ProcEvent.data s =>
    let lines := (splitOnChar '\n' (buffer ++ s).data).map fun l => String.mk l
    (lines.dropLast.map fun line => { chunk := line ++ "\n" },
      (lines.getLast?).getD "")
  | ProcEvent.errEvt msg =>
    ([{ chunk := "[prophet] Failed to run " ++ cmd ++ ": " ++ msg ++ "\n",
        done := true, exitCode := some (-1), error := some msg }], buffer)
  | ProcEvent.closeEvt code =>
    ((if buffer.length ≠ 0 then [{ chunk := buffer ++ "\n" }] else []) ++
      [{ chunk := "\n", done := true, exitCode := some (code.getD (-1)) }], buffer)
  | ProcEvent.timeoutEvt =>
    (match timeoutMs with
     | some t => if 0 < t then [timeoutChunk t] else []
     | none => [], buffer)

/-- All chunks pushed onto `runCommand`'s queue by a list of events. -/
def pushedChunks (cmd : String) (timeoutMs : Option Nat) :
    List ProcEvent → String → List StreamChunk
  | [], _ => []
  | e :: rest, buffer =>
    (pushOfEvent cmd timeoutMs buffer e).1 ++
      pushedChunks cmd timeoutMs rest (pushOfEvent cmd timeoutMs buffer e).2

/-- The buffer after processing a list of events. -/
def bufAfter (cmd : String) (timeoutMs : Option Nat) :
    List ProcEvent → String → String
  | [], b => b
  | e :: rest, b => bufAfter cmd timeoutMs rest (pushOfEvent cmd timeoutMs b e).2

/-- The consumer loop of `runCommand` yields queued chunks in order and stops
right after the first `done` chunk. -/
def takeThroughDone : List StreamChunk → List StreamChunk
  | [] => []
  | c :: rest => if c.done then [c] else c :: takeThroughDone rest

/-- The chunk sequence emitted by `runCommand(cmd, args, cwd, timeoutMs)` when
the spawned process behaves as `events`. -/
def runCommandEmitted (cmd : String) (events : List ProcEvent)
    (timeoutMs : Option Nat) : List StreamChunk :=
  takeThroughDone (pushedChunks cmd timeoutMs events "")

/-- `collectOutput`: concatenates every emitted chunk's text and records the
exit code carried by the `done` chunk (initially `-1`). -/
def collectOutput (cmd : String) (events : List ProcEvent)
    (timeoutMs : Option Nat) : String × Int :=
  (runCommandEmitted cmd events timeoutMs).foldl
    (fun acc msg =>
      (acc.1 ++ msg.chunk, if msg.done then msg.exitCode.getD (-1) else acc.2))
    ("", -1)

/-- Environment oracle for one `runDockerFoundry` request. -/
structure DockerOracle where
  /-- behaviour of the `forge build` container at each attempt -/
  buildEvents : Nat → List ProcEvent
  /-- result of `aiFixTestCode` at each attempt (`none` = unavailable) -/
  fixResult : Nat → Option String
  /-- whether `readdirSync(test)` finds a `.sol` file at each attempt -/
  testFileFound : Nat → Bool
  /-- behaviour of the `forge test -vvv` container -/
  testEvents : List ProcEvent
  /-- behaviour of the post-`break` `forge build && forge test -vvv` container -/
  fallbackEvents : List ProcEvent

def buildFailedChunk (attempt : Nat) : StreamChunk :=
  { chunk := "[prophet] Build failed (attempt " ++ toString (attempt + 1) ++ "/" ++
      toString (MAX_FIX_ATTEMPTS + 1) ++ "), asking AI to fix...\n" }

def aiUnavailableChunk : StreamChunk :=
  { chunk := "[prophet] AI fix unavailable, showing original errors.\n" }

def buildOkChunk : StreamChunk := { chunk := "[prophet] Build OK, running tests...\n" }

/-- The `for (attempt = 0; attempt <= MAX_FIX_ATTEMPTS; attempt++)` loop of
`runDockerFoundry`.  `fuel` is the number of remaining iterations (the loop is
entered with `fuel = MAX_FIX_ATTEMPTS + 1 - attempt`; exhausting it is the
loop's natural exit, which falls through to the fallback).  Returns the yielded
chunks, the number of `forge build` invocations, and whether control reached
the post-loop fallback (`break` or natural exit). -/
def dockerLoop (o : DockerOracle) : Nat → Nat → List StreamChunk × Nat × Bool
  | 0, _ => ([], 0, true)
  | fuel + 1, attempt =>
    let buildResult := collectOutput "docker" (o.buildEvents attempt) (some TIMEOUT_MS)
    if buildResult.2 = 0 then
      (buildOkChunk :: runCommandEmitted "docker" o.testEvents (some TIMEOUT_MS),
        1, false)
    else if attempt < MAX_FIX_ATTEMPTS then
      if o.testFileFound attempt = false then ([buildFailedChunk attempt], 1, true)
      else
        match o.fixResult attempt with
        | none => ([buildFailedChunk attempt, aiUnavailableChunk], 1, true)
        | some _ =>
          let r := dockerLoop o fuel (attempt + 1)
          (buildFailedChunk attempt :: r.1, r.2.1 + 1, r.2.2)
    else
      ([{ chunk := buildResult.1 },
        { chunk := "\n", done := true, exitCode := some buildResult.2 }], 1, false)

/-- `runDockerFoundry`: chunk stream and number of `forge build` invocations
(the fallback's combined `forge build && forge test -vvv` counts as one). -/
def runDockerFoundryM (o : DockerOracle) : List StreamChunk × Nat :=
  let intro : StreamChunk :=
    { chunk := "[prophet] Running in Docker sandbox (prophet-forge)...\n" }
  let r := dockerLoop o (MAX_FIX_ATTEMPTS + 1) 0
  if r.2.2 then
    (intro :: r.1 ++ runCommandEmitted "docker" o.fallbackEvents (some TIMEOUT_MS),
      r.2.1 + 1)
  else (intro :: r.1, r.2.1)

/-- Environment oracle for one `runLocalFoundry` request. -/
structure LocalOracle where
  /-- behaviour of `git init` (spawned without a timeout) -/
  gitEvents : List ProcEvent
  /-- whether `detectDependencies` saw an `@openzeppelin` import -/
  needsOz : Bool
  /-- behaviour of each `forge install` (indexed by dependency position) -/
  installEvents : Nat → List ProcEvent
  buildEvents : Nat → List ProcEvent
  fixResult : Nat → Option String
  testFileFound : Nat → Bool
  testEvents : List ProcEvent
  /-- behaviour of the post-`break` `forge build` -/
  fbBuildEvents : List ProcEvent
  /-- behaviour of the post-`break` `forge test -vvv` -/
  fbTestEvents : List ProcEvent

/-- `detectDependencies`: always forge-std, plus OpenZeppelin when detected. -/
def depsList (o : LocalOracle) : List String :=
  ["foundry-rs/forge-std"] ++
    (if o.needsOz then ["OpenZeppelin/openzeppelin-contracts"] else [])

/-- The exit code carried by the first `done` chunk of an emitted sequence. -/
def doneExit (cs : List StreamChunk) : Option Int :=
  match cs.find? (·.done) with
  | some c => some (c.exitCode.getD (-1))
  | none => none

/-- The dependency-install loop of `runLocalFoundry`: each `forge install` is
streamed; when its `done` chunk carries a non-zero exit code an extra terminal
chunk is yielded and the whole request returns early. -/
def installPhase (o : LocalOracle) : List String → Nat → List StreamChunk × Bool
  | [], _ => ([], true)
  | dep :: rest, idx =>
    let intro : StreamChunk := { chunk := "[prophet] Installing " ++ dep ++ "...\n" }
    let e := runCommandEmitted "forge" (o.installEvents idx) (some TIMEOUT_MS)
    match doneExit e with
    | some code =>
      if code ≠ 0 then
        (intro :: e ++
          [{ chunk := "[prophet] forge install " ++ dep ++ " failed (exit " ++
              toString code ++ "). Is Foundry installed and git available?\n",
             done := true, exitCode := some code }], false)
      else
        let r := installPhase o rest (idx + 1)
        (intro :: e ++ r.1, r.2)
    | none =>
      let r := installPhase o rest (idx + 1)
      (intro :: e ++ r.1, r.2)

def runningBuildChunk : StreamChunk := { chunk := "[prophet] Running forge build...\n" }

/-- The build/fix loop of `runLocalFoundry` (same shape as `dockerLoop`, with a
`Running forge build...` chunk at the top of each iteration). -/
def localLoop (o : LocalOracle) : Nat → Nat → List StreamChunk × Nat × Bool
  | 0, _ => ([], 0, true)
  | fuel + 1, attempt =>
    let buildResult := collectOutput "forge" (o.buildEvents attempt) (some TIMEOUT_MS)
    if buildResult.2 = 0 then
      (runningBuildChunk :: buildOkChunk ::
        runCommandEmitted "forge" o.testEvents (some TIMEOUT_MS), 1, false)
    else if attempt < MAX_FIX_ATTEMPTS then
      if o.testFileFound attempt = false then
        ([runningBuildChunk, buildFailedChunk attempt], 1, true)
      else
        match o.fixResult attempt with
        | none => ([runningBuildChunk, buildFailedChunk attempt, aiUnavailableChunk],
            1, true)
        | some _ =>
          let r := localLoop o fuel (attempt + 1)
          (runningBuildChunk :: buildFailedChunk attempt :: r.1, r.2.1 + 1, r.2.2)
    else
      ([runningBuildChunk, { chunk := buildResult.1 },
        { chunk := "\n", done := true, exitCode := some buildResult.2 }], 1, false)

/-- `runLocalFoundry`: chunk stream and number of `forge build` invocations
(the fallback's separate `forge build` counts; `forge test` does not). -/
def runLocalFoundryM (o : LocalOracle) : List StreamChunk × Nat :=
  let intro : StreamChunk :=
    { chunk := "[prophet] Running locally (no Docker sandbox)...\n" }
  let git := runCommandEmitted "git" o.gitEvents none
  let inst := installPhase o (depsList o) 0
  if inst.2 = false then (intro :: git ++ inst.1, 0)
  else
    let r := localLoop o (MAX_FIX_ATTEMPTS + 1) 0
    if r.2.2 then
      (intro :: git ++ inst.1 ++ r.1 ++
        runCommandEmitted "forge" o.fbBuildEvents (some TIMEOUT_MS) ++
        runCommandEmitted "forge" o.fbTestEvents (some TIMEOUT_MS), r.2.1 + 1)
    else (intro :: git ++ inst.1 ++ r.1, r.2.1)

/-- The filesystem as the list of existing paths. -/
abbrev Fs := List String

/-- Environment oracle for one `runFoundryTests` request. -/
structure RunnerOracle where
  /-- `useDockerSandbox()` -/
  useDocker : Bool
  /-- the random `prophet-foundry-...` workspace path -/
  tmpDir : String
  /-- whether `writeTempProject` throws (an unexpected exception before any yield) -/
  writeThrows : Bool
  docker : DockerOracle
  loc : LocalOracle
  /-- whether the final `fs.rmSync(tmpDir, recursive, force)` succeeds -/
  rmOk : Bool
  /-- workspace-relative paths written during the run (`writeTempProject` and
  the fix loop write exclusively under `tmpDir` via `path.join(tmpDir, ...)`) -/
  writtenFiles : List String

/-- Paths removed by `fs.rmSync(dir, { recursive: true, force: true })`:
the directory itself and everything below it. -/
def underDir (dir p : String) : Bool :=
  p == dir || (dir ++ "/").data.isPrefixOf p.data

def rmRf (dir : String) (fs : Fs) : Fs := fs.filter fun p => !underDir dir p

/-- The filesystem after `writeTempProject` (and any later fix-loop writes):
the workspace root plus files under it. -/
def writeFs (o : RunnerOracle) (fs : Fs) : Fs :=
  fs ++ [o.tmpDir] ++ o.writtenFiles.map fun f => o.tmpDir ++ "/" ++ f

structure RunResult where
  chunks : List StreamChunk
  /-- whether the generator re-threw an exception (after the `finally`) -/
  threw : Bool
  fs : Fs
  /-- number of `forge build` invocations -/
  builds : Nat
deriving Repr

/-- `runFoundryTests`: write the workspace, stream the selected mode, and in
`finally` remove the workspace, swallowing removal failures. -/
def runFoundryTestsM (o : RunnerOracle) (fs0 : Fs) : RunResult :=
  let fs1 := writeFs o fs0
  let r :=
    if o.writeThrows then ([], 0)
    else
      let tmpChunk : StreamChunk :=
        { chunk := "[prophet] Temp project: " ++ o.tmpDir ++ "\n" }
      let inner := if o.useDocker then runDockerFoundryM o.docker
        else runLocalFoundryM o.loc
      (tmpChunk :: inner.1, inner.2)
  let fs2 := if o.rmOk then rmRf o.tmpDir fs1 else fs1
  { chunks := r.1, threw := o.writeThrows, fs := fs2, builds := r.2 }

/-- Whether an event terminates `runCommand`'s stream (Node guarantees one of
`error`/`close` is eventually delivered for every spawn). -/
def isTermEvent : ProcEvent → Bool
  | ProcEvent.errEvt _ => true
  | ProcEvent.closeEvt _ => true
  | _ => false

def isDataEvent : ProcEvent → Bool
  | ProcEvent.data _ => true
  | _ => false

/-- A well-formed process trace: some `error` or `close` event occurs. -/
def HasTermEvent (events : List ProcEvent) : Prop :=
  ∃ e ∈ events, isTermEvent e = true

instance (events : List ProcEvent) : Decidable (HasTermEvent events) :=
  inferInstanceAs (Decidable (∃ e ∈ events, isTermEvent e = true))

/-- The stream contract: the sequence ends with a `done` chunk and no earlier
chunk is `done` (hence exactly one terminal chunk, with nothing after it). -/
def EndsWithOneDone (cs : List StreamChunk) : Prop :=
  ∃ cs' c, cs = cs' ++ [c] ∧ c.done = true ∧ ∀ x ∈ cs', x.done = false

/-! ## Brace accounting for the synthesized source -/

def countChar (c : Char) (s : String) : Nat := s.data.count c

/-- Number of `u+007B` minus number of `u+007D` in a string. -/
def braceBal (s : String) : Int :=
  (countChar '\x7b' s : Int) - (countChar '\x7d' s : Int)

/-- A string containing no brace character. -/
def braceFree (s : String) : Prop :=
  countChar '\x7b' s = 0 ∧ countChar '\x7d' s = 0

instance (s : String) : Decidable (braceFree s) :=
  inferInstanceAs (Decidable (countChar '\x7b' s = 0 ∧ countChar '\x7d' s = 0))

def stepBF (s : CallStep) : Prop :=
  braceFree s.call ∧ (∀ a ∈ s.args.getD [], braceFree a) ∧ braceFree (s.value.getD "")

instance (s : CallStep) : Decidable (stepBF s) :=
  inferInstanceAs (Decidable (braceFree s.call ∧
    (∀ a ∈ s.args.getD [], braceFree a) ∧ braceFree (s.value.getD "")))

def assertionBF (a : Assertion) : Prop :=
  braceFree a.left ∧ braceFree (jsStr a.right) ∧ braceFree (a.message.getD "")

instance (a : Assertion) : Decidable (assertionBF a) :=
  inferInstanceAs (Decidable (braceFree a.left ∧ braceFree (jsStr a.right) ∧
    braceFree (a.message.getD "")))

def testBF (t : TestPlan) : Prop :=
  braceFree t.name ∧ braceFree (t.description.getD "") ∧
    (∀ s ∈ t.setup, stepBF s) ∧ (∀ s ∈ t.attack, stepBF s) ∧
    ∀ a ∈ t.assertions, assertionBF a

instance (t : TestPlan) : Decidable (testBF t) :=
  inferInstanceAs (Decidable (braceFree t.name ∧ braceFree (t.description.getD "") ∧
    (∀ s ∈ t.setup, stepBF s) ∧ (∀ s ∈ t.attack, stepBF s) ∧
    ∀ a ∈ t.assertions, assertionBF a))

def ifaceBF (i : ContractInterface) : Prop :=
  braceFree i.name ∧ ∀ f ∈ i.functions, braceFree f.name

instance (i : ContractInterface) : Decidable (ifaceBF i) :=
  inferInstanceAs (Decidable (braceFree i.name ∧ ∀ f ∈ i.functions, braceFree f.name))

/-- The test-contract declaration line emitted by `generateSolidityFromPlan`. -/
def headerLine (i : ContractInterface) : String :=
  "contract " ++ i.name ++ "Test is Test \x7b"

/-! ## Concrete example inputs used by counterexamples and witnesses -/

/-- An interface with one non-payable function `foo` (for C2). -/
def ifaceC2 : ContractInterface :=
  ⟨"C", [], false, [⟨"foo", [], Mutability.mnonpayable, ""⟩]⟩

/-- An attack step calling non-payable `foo` with `value: ""` (for C2). -/
def planC2 : AttackPlan :=
  ⟨false, none, [⟨"testC2", none, [], [⟨Actor.user, "foo", none, some ""⟩], []⟩]⟩

/-- Witness inputs for the amended C2: one payable function. -/
def ifaceC2W : ContractInterface :=
  ⟨"C", [], false, [⟨"pay", [], Mutability.mpayable, ""⟩]⟩

def planC2W : AttackPlan :=
  ⟨false, none, [⟨"testW", none, [], [⟨Actor.user, "pay", none, some "1 ether"⟩], []⟩]⟩

def testC2W : TestPlan :=
  ⟨"testW", none, [], [⟨Actor.user, "pay", none, some "1 ether"⟩], []⟩

/-- An interface with one non-payable function `foo` (for C5). -/
def ifaceC5 : ContractInterface :=
  ⟨"C", [], false, [⟨"foo", [], Mutability.mnonpayable, ""⟩]⟩

/-- A directly-constructed (unvalidated) step carrying a value (for C5). -/
def stepC5 : CallStep := ⟨Actor.user, "foo", none, some "1 ether"⟩

def planC5 : AttackPlan := ⟨false, none, [⟨"testC5", none, [], [stepC5], []⟩]⟩

/-- Witness inputs for the amended C5. -/
def ifaceC5W : ContractInterface :=
  ⟨"C", [], false, [⟨"foo", [], Mutability.mnonpayable, ""⟩]⟩

def planC5W : AttackPlan :=
  ⟨false, none, [⟨"testW", none, [], [⟨Actor.user, "foo", none, some "2 ether"⟩], []⟩]⟩

def testC5W : TestPlan := ⟨"testW", none, [], [⟨Actor.user, "foo", none, none⟩], []⟩

def stepC5W : CallStep := ⟨Actor.user, "foo", none, none⟩

/-- Substring test (all positions). -/
def containsSubAux (n : List Char) : List Char → Bool
  | [] => n.isEmpty
  | c :: t => n.isPrefixOf (c :: t) || containsSubAux n t

def containsSub (needle hay : String) : Bool := containsSubAux needle.data hay.data

/-- For C7: interface with one non-payable function `f`. -/
def ifaceC7 : ContractInterface :=
  ⟨"C", [], false, [⟨"f", [], Mutability.mnonpayable, ""⟩]⟩

/-- For C7: a test whose description contains a lone opening brace. -/
def planC7 : AttackPlan :=
  ⟨false, none, [⟨"testA", some "\x7b", [⟨Actor.user, "f", none, none⟩], [], []⟩]⟩

/-- For C7: a plan with two surviving tests (only one test contract results). -/
def planC7b : AttackPlan :=
  ⟨false, none,
    [⟨"testA", none, [⟨Actor.user, "f", none, none⟩], [], []⟩,
     ⟨"testB", none, [⟨Actor.user, "f", none, none⟩], [], []⟩]⟩

/-- For C7's witness: a brace-free plan. -/
def planC7W : AttackPlan :=
  ⟨false, none, [⟨"testA", some "plain", [⟨Actor.user, "f", none, some "1 ether"⟩],
    [], [⟨AssertType.assertEq, "target.f()", some "0", some "m"⟩]⟩]⟩

/-- A docker oracle whose every build invocation times out and whose fixer is
always available (for C3): the timeout is absorbed by `collectOutput` and the
build is retried until the attempts are exhausted. -/
def dockerC3 : DockerOracle :=
  ⟨fun _ => [ProcEvent.timeoutEvt, ProcEvent.closeEvt (some 137)],
   fun _ => some "fixed", fun _ => true,
   [ProcEvent.data "test ok\n", ProcEvent.closeEvt (some 0)],
   [ProcEvent.closeEvt (some 1)]⟩

/-- An arbitrary benign local oracle (unused fields of runner oracles). -/
def localIdle : LocalOracle :=
  ⟨[], false, fun _ => [], fun _ => [], fun _ => none, fun _ => false, [], [], []⟩

def runnerC3 : RunnerOracle :=
  ⟨true, "/tmp/prophet-foundry-x", false, dockerC3, localIdle, true, []⟩

/-- A local-mode oracle for which every spawned process succeeds (for C1). -/
def localC1 : LocalOracle :=
  ⟨[ProcEvent.closeEvt (some 0)], false,
   fun _ => [ProcEvent.closeEvt (some 0)],
   fun _ => [ProcEvent.closeEvt (some 0)],
   fun _ => none, fun _ => true,
   [ProcEvent.data "ok\n", ProcEvent.closeEvt (some 0)], [], []⟩

def dockerIdle : DockerOracle :=
  ⟨fun _ => [], fun _ => none, fun _ => false, [], []⟩

def runnerC1 : RunnerOracle :=
  ⟨false, "/tmp/prophet-foundry-x", false, dockerIdle, localC1, true, []⟩

/-- A docker-mode oracle where the build succeeds and the test run produces one
line and exits 0 (for C1's witness). -/
def dockerC1W : DockerOracle :=
  ⟨fun _ => [ProcEvent.closeEvt (some 0)], fun _ => none, fun _ => true,
   [ProcEvent.data "ok\n", ProcEvent.closeEvt (some 0)],
   [ProcEvent.closeEvt (some 0)]⟩

def runnerC1W : RunnerOracle :=
  ⟨true, "/tmp/prophet-foundry-x", false, dockerC1W, localIdle, true, []⟩

/-- A docker-mode oracle whose build succeeds and whose test phase times out
after one line of output (for C3's witness, part a). -/
def dockerC3W : DockerOracle :=
  ⟨fun _ => [ProcEvent.closeEvt (some 0)], fun _ => none, fun _ => true,
   [ProcEvent.data "running\n", ProcEvent.timeoutEvt],
   [ProcEvent.closeEvt (some 0)]⟩

def runnerC3W : RunnerOracle :=
  ⟨true, "/tmp/prophet-foundry-x", false, dockerC3W, localIdle, true, []⟩

/-- A docker-mode oracle whose first build times out, with the fixer available
(for C3's witness, part b). -/
def dockerC3W2 : DockerOracle :=
  ⟨fun _ => [ProcEvent.data "Compiling...\n", ProcEvent.timeoutEvt],
   fun _ => some "fixed", fun _ => true,
   [ProcEvent.closeEvt (some 0)], [ProcEvent.closeEvt (some 0)]⟩

def runnerC3W2 : RunnerOracle :=
  ⟨true, "/tmp/prophet-foundry-x", false, dockerC3W2, localIdle, true, []⟩

/-! ## Lemmas about the validator -/

/-- A successful `fnMapGet` returns a signature from the interface bearing the
looked-up name. -/
theorem fnMapGet_mem {i : ContractInterface} {n : String} {fn : FunctionSig}
    (h : fnMapGet i n = some fn) : fn ∈ i.functions ∧ fn.name = n := by
  unfold fnMapGet at h
  have h1 := List.mem_of_find?_eq_some h
  have h2 := List.find?_some h
  rw [List.mem_reverse] at h1
  simp only [beq_iff_eq] at h2
  exact ⟨h1, h2⟩

theorem fnMapGet_name_mem {i : ContractInterface} {n : String} {fn : FunctionSig}
    (h : fnMapGet i n = some fn) : n ∈ fnNames i := by
  obtain ⟨hmem, hname⟩ := fnMapGet_mem h
  exact hname ▸ List.mem_map_of_mem FunctionSig.name hmem

/-- Shape of a step accepted by `validCall`: it is the input step, possibly with
its `value` removed; and it is either the reserved attacker step or a step whose
`call` resolves in the interface, carrying a truthy `value` only if the resolved
signature is payable. -/
theorem validCall_cases {i : ContractInterface} {s s' : CallStep}
    (h : validCall i s = some s') :
    (s' = s ∨ s' = { s with value := none }) ∧
      ((s'.as = Actor.attacker_contract ∧ s'.call = "attack") ∨
        ∃ fn, fnMapGet i s'.call = some fn ∧
          (optTruthy s'.value = true → fn.mutability = Mutability.mpayable)) := by
  unfold validCall at h
  split at h
  · rename_i hc
    cases h
    exact ⟨Or.inl rfl, Or.inl hc⟩
  · rename_i hc
    split at h
    · exact absurd h (by simp)
    · rename_i fn hget
      split at h
      · rename_i hstrip
        cases h
        refine ⟨Or.inr rfl, Or.inr ⟨fn, hget, ?_⟩⟩
        intro hv
        simp [optTruthy] at hv
      · rename_i hkeep
        cases h
        refine ⟨Or.inl rfl, Or.inr ⟨fn, hget, ?_⟩⟩
        intro hv
        by_contra hnp
        exact hkeep ⟨hv, hnp⟩

/-- `validCall` is idempotent on its own output. -/
theorem validCall_idem {i : ContractInterface} {s s' : CallStep}
    (h : validCall i s = some s') : validCall i s' = some s' := by
  unfold validCall at h ⊢
  split at h
  · rename_i hc
    cases h
    simp [hc]
  · rename_i hc
    split at h
    · exact absurd h (by simp)
    · rename_i fn hget
      split at h
      · rename_i hstrip
        cases h
        rw [if_neg hc, hget]
        simp [optTruthy]
      · rename_i hkeep
        cases h
        rw [if_neg hc, hget]
        exact if_neg hkeep

theorem mem_filterMap_validCall {i : ContractInterface} {l : List CallStep}
    {s : CallStep} (h : s ∈ l.filterMap (validCall i)) :
    ∃ s₀ ∈ l, validCall i s₀ = some s := by
  obtain ⟨s₀, hmem, heq⟩ := List.mem_filterMap.mp h
  exact ⟨s₀, hmem, heq⟩

/-- The tests of a validated plan, independently of the
`attackerReentersFunction` fix-up. -/
theorem validatePlan_tests (p : AttackPlan) (i : ContractInterface) :
    (validatePlan p i).tests = (p.tests.map (transformTest i)).filter keepTest := by
  unfold validatePlan
  split <;> rfl

theorem mem_validatePlan_tests {p : AttackPlan} {i : ContractInterface}
    {t : TestPlan} (h : t ∈ (validatePlan p i).tests) :
    ∃ t₀ ∈ p.tests, t = transformTest i t₀ := by
  rw [validatePlan_tests] at h
  have h1 := List.mem_of_mem_filter h
  obtain ⟨t₀, hmem, heq⟩ := List.mem_map.mp h1
  exact ⟨t₀, hmem, heq.symm⟩

/-- Every call step of a validated test arose from `validCall`. -/
theorem validatePlan_step_source {p : AttackPlan} {i : ContractInterface}
    {t : TestPlan} (ht : t ∈ (validatePlan p i).tests) {s : CallStep}
    (hs : s ∈ t.setup ++ t.attack) : ∃ s₀, validCall i s₀ = some s := by
  obtain ⟨t₀, _, rfl⟩ := mem_validatePlan_tests ht
  rcases List.mem_append.mp hs with h | h
  · obtain ⟨s₀, _, he⟩ := mem_filterMap_validCall
      (show s ∈ t₀.setup.filterMap (validCall i) from h)
    exact ⟨s₀, he⟩
  · obtain ⟨s₀, _, he⟩ := mem_filterMap_validCall
      (show s ∈ t₀.attack.filterMap (validCall i) from h)
    exact ⟨s₀, he⟩

theorem filterMap_id_of_mem {α : Type} {f : α → Option α} {m : List α}
    (h : ∀ x ∈ m, f x = some x) : m.filterMap f = m := by
  induction m with
  | nil => rfl
  | cons a t ih =>
    rw [List.filterMap_cons, h a (List.mem_cons_self a t),
      ih fun x hx => h x (List.mem_cons_of_mem a hx)]

/-- A normalized test name always starts with `test`. -/
theorem normTestName_startsWith (n : String) :
    jsStartsWith (normTestName n) "test" = true := by
  unfold normTestName
  split
  · assumption
  · unfold jsStartsWith
    rw [String.data_append]
    exact List.isPrefixOf_iff_prefix.mpr (List.prefix_append _ _)

theorem normTestName_idem (n : String) :
    normTestName (normTestName n) = normTestName n := by
  have h := normTestName_startsWith n
  generalize hm : normTestName n = m at h ⊢
  unfold normTestName
  rw [if_pos h]

theorem transformTest_idem (i : ContractInterface) (t : TestPlan) :
    transformTest i (transformTest i t) = transformTest i t := by
  have h1 : ∀ l : List CallStep,
      (l.filterMap (validCall i)).filterMap (validCall i) = l.filterMap (validCall i) :=
    fun l => filterMap_id_of_mem fun s hs => by
      obtain ⟨s₀, _, he⟩ := mem_filterMap_validCall hs
      exact validCall_idem he
  unfold transformTest
  congr 1
  · exact normTestName_idem t.name
  · exact h1 t.setup
  · exact h1 t.attack
  · simp [List.filter_filter]

/-- **C6.** `validate` is idempotent:
`validatePlan (validatePlan p i) i = validatePlan p i`. -/
theorem validatePlan_idem (p : AttackPlan) (i : ContractInterface) :
    validatePlan (validatePlan p i) i = validatePlan p i := by
  obtain ⟨v, hv⟩ : ∃ v, validatePlan p i = v := ⟨_, rfl⟩
  have hT : (v.tests.map (transformTest i)).filter keepTest = v.tests := by
    have hvt : v.tests = (p.tests.map (transformTest i)).filter keepTest := by
      rw [← hv, validatePlan_tests]
    rw [hvt]
    have hmap : ((p.tests.map (transformTest i)).filter keepTest).map (transformTest i) =
        (p.tests.map (transformTest i)).filter keepTest := by
      rw [List.map_congr_left, List.map_id]
      intro t ht
      have := List.mem_of_mem_filter ht
      obtain ⟨t₀, _, rfl⟩ := List.mem_map.mp this
      exact transformTest_idem i t₀
    rw [hmap, List.filter_filter]
    simp
  have hcond : ¬(optTruthy v.attackerReentersFunction = true ∧
      (v.attackerReentersFunction.getD "") ∉ fnNames i) := by
    unfold validatePlan at hv
    split at hv
    · rw [← hv]
      simp [optTruthy]
    · rename_i hc
      rw [← hv]
      simpa using hc
  rw [hv]
  unfold validatePlan
  rw [if_neg hcond, hT]

/-! ## Provenance of validated plans (no invented content) -/

/-- A surviving step is the originating step, possibly with `value` removed. -/
def stepFrom (s' s : CallStep) : Prop :=
  s' = s ∨ s' = { s with value := none }

/-- `out` is a subsequence of `inp` in which each kept step is unchanged except
possibly for removal of its `value`. -/
def stepsFrom (out inp : List CallStep) : Prop :=
  ∃ sub, sub.Sublist inp ∧ List.Forall₂ stepFrom out sub

/-- How a surviving test arises from an input test: same description, name
unchanged or `test`-prefixed with the first letter capitalized, assertions a
sublist, and setup/attack lists related by `stepsFrom`. -/
def testFrom (t' t : TestPlan) : Prop :=
  t'.description = t.description ∧
    (t'.name = t.name ∨ t'.name = "test" ++ capFirst t.name) ∧
    t'.assertions.Sublist t.assertions ∧
    stepsFrom t'.setup t.setup ∧ stepsFrom t'.attack t.attack

theorem stepsFrom_filterMap (i : ContractInterface) (l : List CallStep) :
    stepsFrom (l.filterMap (validCall i)) l := by
  induction l with
  | nil => exact ⟨[], List.Sublist.refl _, List.Forall₂.nil⟩
  | cons s t ih =>
    obtain ⟨sub, hsub, hf⟩ := ih
    rw [List.filterMap_cons]
    cases h : validCall i s with
    | none => exact ⟨sub, hsub.cons s, hf⟩
    | some s' =>
      refine ⟨s :: sub, hsub.cons₂ s, List.Forall₂.cons ?_ hf⟩
      rcases (validCall_cases h).1 with h1 | h1
      · exact Or.inl h1
      · exact Or.inr h1

theorem testFrom_transformTest (i : ContractInterface) (t : TestPlan) :
    testFrom (transformTest i t) t := by
  refine ⟨rfl, ?_, List.filter_sublist _, stepsFrom_filterMap i t.setup,
    stepsFrom_filterMap i t.attack⟩
  unfold transformTest normTestName
  split
  · exact Or.inl rfl
  · exact Or.inr rfl

/-- **C10.** `validatePlan` never invents content: its surviving tests are,
in order, drawn from distinct tests of the input plan, each related to its
origin by `testFrom`. -/
theorem validatePlan_no_invention (p : AttackPlan) (i : ContractInterface) :
    ∃ sub, sub.Sublist p.tests ∧
      List.Forall₂ testFrom (validatePlan p i).tests sub := by
  rw [validatePlan_tests]
  induction p.tests with
  | nil => exact ⟨[], List.Sublist.refl _, List.Forall₂.nil⟩
  | cons t l ih =>
    obtain ⟨sub, hsub, hf⟩ := ih
    rw [List.map_cons, List.filter_cons]
    by_cases h : keepTest (transformTest i t) = true
    · rw [if_pos h]
      exact ⟨t :: sub, hsub.cons₂ t, List.Forall₂.cons (testFrom_transformTest i t) hf⟩
    · rw [if_neg h]
      exact ⟨sub, hsub.cons t, hf⟩

/-- Shared shape lemma for steps surviving validation: each is either the
reserved attacker step, or calls a function of the interface and carries a
*truthy* `value` only if the function resolved by the validator's map lookup is
payable. -/
theorem validatedStep_shape {p : AttackPlan} {i : ContractInterface}
    {t : TestPlan} (ht : t ∈ (validatePlan p i).tests)
    {s : CallStep} (hs : s ∈ t.setup ++ t.attack) :
    (s.as = Actor.attacker_contract ∧ s.call = "attack") ∨
      (s.call ∈ fnNames i ∧
        (optTruthy s.value = true →
          ∃ fn, fnMapGet i s.call = some fn ∧ fn.mutability = Mutability.mpayable)) := by
  obtain ⟨s₀, he⟩ := validatePlan_step_source ht hs
  rcases (validCall_cases he).2 with h | ⟨fn, hget, himp⟩
  · exact Or.inl h
  · exact Or.inr ⟨fnMapGet_name_mem hget, fun hv => ⟨fn, hget, himp hv⟩⟩

/-! ## Lemmas about the stream protocol -/

theorem takeThroughDone_endsOne {l : List StreamChunk}
    (h : ∃ c ∈ l, c.done = true) : EndsWithOneDone (takeThroughDone l) := by
  induction l with
  | nil => simp at h
  | cons c rest ih =>
    unfold takeThroughDone
    by_cases hc : c.done = true
    · rw [if_pos hc]
      exact ⟨[], c, rfl, hc, by simp⟩
    · rw [if_neg hc]
      obtain ⟨c', hc', hd⟩ := h
      rcases List.mem_cons.mp hc' with rfl | hmem
      · exact absurd hd hc
      · obtain ⟨cs', cl, heq, hdl, hnd⟩ := ih ⟨c', hmem, hd⟩
        refine ⟨c :: cs', cl, by rw [heq]; rfl, hdl, ?_⟩
        intro x hx
        rcases List.mem_cons.mp hx with rfl | hx
        · simpa using hc
        · exact hnd x hx

theorem pushed_hasDone {cmd : String} {tms : Option Nat} {evs : List ProcEvent}
    (h : HasTermEvent evs) :
    ∀ b, ∃ c ∈ pushedChunks cmd tms evs b, c.done = true := by
  induction evs with
  | nil => simp [HasTermEvent] at h
  | cons e rest ih =>
    intro b
    obtain ⟨e', he', hterm⟩ := h
    rcases List.mem_cons.mp he' with rfl | hmem
    · cases e' with
      | errEvt m =>
        exact ⟨StreamChunk.mk ("[prophet] Failed to run " ++ cmd ++ ": " ++ m ++ "\n")
            true (some (-1)) (some m),
          by simp [pushedChunks, pushOfEvent], rfl⟩
      | closeEvt co =>
        exact ⟨StreamChunk.mk "\n" true (some (co.getD (-1))) none,
          by simp [pushedChunks, pushOfEvent], rfl⟩
      | data s => simp [isTermEvent] at hterm
      | timeoutEvt => simp [isTermEvent] at hterm
    · obtain ⟨c, hc, hd⟩ := ih ⟨e', hmem, hterm⟩ (pushOfEvent cmd tms b e).2
      refine ⟨c, ?_, hd⟩
      rw [show pushedChunks cmd tms (e :: rest) b =
        (pushOfEvent cmd tms b e).1 ++
          pushedChunks cmd tms rest (pushOfEvent cmd tms b e).2 from rfl]
      exact List.mem_append_right _ hc

theorem endsOne_append {as bs : List StreamChunk}
    (ha : ∀ x ∈ as, x.done = false) (hb : EndsWithOneDone bs) :
    EndsWithOneDone (as ++ bs) := by
  obtain ⟨cs', c, heq, hd, hnd⟩ := hb
  refine ⟨as ++ cs', c, by rw [heq, List.append_assoc], hd, ?_⟩
  intro x hx
  rcases List.mem_append.mp hx with hx | hx
  · exact ha x hx
  · exact hnd x hx

theorem endsOne_cons {c : StreamChunk} {bs : List StreamChunk}
    (hc : c.done = false) (hb : EndsWithOneDone bs) :
    EndsWithOneDone (c :: bs) :=
  endsOne_append (fun x hx => by
    rw [List.mem_singleton] at hx
    rw [hx]
    exact hc) hb

theorem endsOne_doneCount {cs : List StreamChunk} (h : EndsWithOneDone cs) :
    cs.countP (fun c => c.done) = 1 := by
  obtain ⟨cs', c, rfl, hd, hnd⟩ := h
  rw [List.countP_append]
  have h0 : cs'.countP (fun c => c.done) = 0 :=
    List.countP_eq_zero.mpr fun x hx => by simp [hnd x hx]
  simp [h0, hd]

theorem runCommandEmitted_endsOne {cmd : String} {evs : List ProcEvent}
    {tms : Option Nat} (h : HasTermEvent evs) :
    EndsWithOneDone (runCommandEmitted cmd evs tms) :=
  takeThroughDone_endsOne (pushed_hasDone h "")

/-- Splitting `pushedChunks` across an event-list concatenation. -/
theorem pushed_append (cmd : String) (tms : Option Nat) (xs ys : List ProcEvent) :
    ∀ b, pushedChunks cmd tms (xs ++ ys) b =
      pushedChunks cmd tms xs b ++ pushedChunks cmd tms ys (bufAfter cmd tms xs b) := by
  induction xs with
  | nil => intro b; rfl
  | cons e rest ih =>
    intro b
    rw [show pushedChunks cmd tms ((e :: rest) ++ ys) b =
        (pushOfEvent cmd tms b e).1 ++
          pushedChunks cmd tms (rest ++ ys) (pushOfEvent cmd tms b e).2 from rfl,
      ih,
      show pushedChunks cmd tms (e :: rest) b =
        (pushOfEvent cmd tms b e).1 ++
          pushedChunks cmd tms rest (pushOfEvent cmd tms b e).2 from rfl,
      show bufAfter cmd tms (e :: rest) b =
        bufAfter cmd tms rest (pushOfEvent cmd tms b e).2 from rfl,
      List.append_assoc]

/-- Chunks flushed by pure `data` events are never terminal. -/
theorem data_pushed_nondone {cmd : String} {tms : Option Nat} {evs : List ProcEvent}
    (h : ∀ e ∈ evs, isDataEvent e = true) :
    ∀ b, ∀ x ∈ pushedChunks cmd tms evs b, x.done = false := by
  induction evs with
  | nil => intro b x hx; simp [pushedChunks] at hx
  | cons e rest ih =>
    intro b x hx
    rw [show pushedChunks cmd tms (e :: rest) b =
      (pushOfEvent cmd tms b e).1 ++
        pushedChunks cmd tms rest (pushOfEvent cmd tms b e).2 from rfl] at hx
    rcases List.mem_append.mp hx with hx | hx
    · cases e with
      | data s =>
        simp only [pushOfEvent] at hx
        obtain ⟨line, _, rfl⟩ := List.mem_map.mp hx
        rfl
      | errEvt m => exact absurd (h _ (List.mem_cons_self _ _)) (by simp [isDataEvent])
      | closeEvt co => exact absurd (h _ (List.mem_cons_self _ _)) (by simp [isDataEvent])
      | timeoutEvt => exact absurd (h _ (List.mem_cons_self _ _)) (by simp [isDataEvent])
    · exact ih (fun e' he' => h e' (List.mem_cons_of_mem _ he')) _ x hx

theorem takeThroughDone_append_done {l : List StreamChunk} {c : StreamChunk}
    (hl : ∀ x ∈ l, x.done = false) (hc : c.done = true) :
    takeThroughDone (l ++ [c]) = l ++ [c] := by
  induction l with
  | nil => simp [takeThroughDone, hc]
  | cons a t ih =>
    have ha := hl a (List.mem_cons_self a t)
    rw [List.cons_append,
      show takeThroughDone (a :: (t ++ [c])) =
        if a.done then [a] else a :: takeThroughDone (t ++ [c]) from rfl,
      if_neg (by simp [ha]), ih fun x hx => hl x (List.mem_cons_of_mem a hx)]

/-- The emitted sequence of a run whose trace is data lines followed by the
kill timer: the flushed lines, then the timeout-tagged terminal chunk. -/
theorem runCommandEmitted_timeout {cmd : String} {pre : List ProcEvent}
    (hpre : ∀ e ∈ pre, isDataEvent e = true) :
    ∃ nd, runCommandEmitted cmd (pre ++ [ProcEvent.timeoutEvt]) (some TIMEOUT_MS) =
        nd ++ [timeoutChunk TIMEOUT_MS] ∧ ∀ x ∈ nd, x.done = false := by
  refine ⟨pushedChunks cmd (some TIMEOUT_MS) pre "", ?_, data_pushed_nondone hpre ""⟩
  unfold runCommandEmitted
  rw [pushed_append]
  have hto : pushedChunks cmd (some TIMEOUT_MS) [ProcEvent.timeoutEvt]
      (bufAfter cmd (some TIMEOUT_MS) pre "") = [timeoutChunk TIMEOUT_MS] := by
    simp [pushedChunks, pushOfEvent, TIMEOUT_MS]
  rw [hto]
  exact takeThroughDone_append_done (data_pushed_nondone hpre "") rfl

/-- `collectOutput` of such a timed-out run reports exit code `-1` (the
timeout-tagged terminal chunk is absorbed into the collected text). -/
theorem collectOutput_timeout {cmd : String} {pre : List ProcEvent}
    (hpre : ∀ e ∈ pre, isDataEvent e = true) :
    (collectOutput cmd (pre ++ [ProcEvent.timeoutEvt]) (some TIMEOUT_MS)).2 = -1 := by
  obtain ⟨nd, heq, _⟩ := (runCommandEmitted_timeout hpre :
    ∃ nd, runCommandEmitted cmd (pre ++ [ProcEvent.timeoutEvt]) (some TIMEOUT_MS) =
        nd ++ [timeoutChunk TIMEOUT_MS] ∧ ∀ x ∈ nd, x.done = false)
  unfold collectOutput
  rw [heq, List.foldl_append]
  simp [timeoutChunk]

/-! ## Lemmas about the build/fix loops -/

/-- Step equation of `dockerLoop`. -/
theorem dockerLoop_succ (o : DockerOracle) (fuel attempt : Nat) :
    dockerLoop o (fuel + 1) attempt =
      (if (collectOutput "docker" (o.buildEvents attempt) (some TIMEOUT_MS)).2 = 0 then
        (buildOkChunk :: runCommandEmitted "docker" o.testEvents (some TIMEOUT_MS),
          1, false)
      else if attempt < MAX_FIX_ATTEMPTS then
        if o.testFileFound attempt = false then ([buildFailedChunk attempt], 1, true)
        else
          match o.fixResult attempt with
          | none => ([buildFailedChunk attempt, aiUnavailableChunk], 1, true)
          | some _ =>
            (buildFailedChunk attempt :: (dockerLoop o fuel (attempt + 1)).1,
              (dockerLoop o fuel (attempt + 1)).2.1 + 1,
              (dockerLoop o fuel (attempt + 1)).2.2)
      else
        ([{ chunk := (collectOutput "docker" (o.buildEvents attempt)
              (some TIMEOUT_MS)).1 },
          { chunk := "\n", done := true,
            exitCode := some (collectOutput "docker" (o.buildEvents attempt)
              (some TIMEOUT_MS)).2 }], 1, false)) := rfl

/-- Stream shape of the docker loop: on `break`/exhausted-fuel no terminal chunk
has been emitted yet; otherwise the emitted chunks end with exactly one. -/
theorem dockerLoop_stream (o : DockerOracle) (ht : HasTermEvent o.testEvents) :
    ∀ fuel attempt,
      ((dockerLoop o fuel attempt).2.2 = true →
        ∀ x ∈ (dockerLoop o fuel attempt).1, x.done = false) ∧
      ((dockerLoop o fuel attempt).2.2 = false →
        EndsWithOneDone (dockerLoop o fuel attempt).1) := by
  intro fuel
  induction fuel with
  | zero =>
    intro attempt
    exact ⟨fun _ x hx => by simp [dockerLoop] at hx, fun h => by simp [dockerLoop] at h⟩
  | succ fuel ih =>
    intro attempt
    rw [dockerLoop_succ]
    split
    · refine ⟨fun hbr => by simp at hbr, fun _ => ?_⟩
      exact endsOne_cons rfl (runCommandEmitted_endsOne ht)
    · split
      · split
        · refine ⟨fun _ x hx => ?_, fun hbr => by simp at hbr⟩
          simp only [List.mem_singleton] at hx
          subst hx; rfl
        · split
          · refine ⟨fun _ x hx => ?_, fun hbr => by simp at hbr⟩
            rcases List.mem_cons.mp hx with rfl | hx
            · rfl
            · simp only [List.mem_singleton] at hx
              subst hx; rfl
          · obtain ⟨h1, h2⟩ := ih (attempt + 1)
            refine ⟨fun hbr x hx => ?_, fun hbr => ?_⟩
            · rcases List.mem_cons.mp hx with rfl | hx
              · rfl
              · exact h1 hbr x hx
            · exact endsOne_cons rfl (h2 hbr)
      · refine ⟨fun hbr => by simp at hbr, fun _ => ?_⟩
        refine ⟨[_], _, rfl, rfl, ?_⟩
        intro x hx
        simp only [List.mem_singleton] at hx
        subst hx; rfl

theorem runDockerFoundryM_endsOne (o : DockerOracle) (ht : HasTermEvent o.testEvents)
    (hf : HasTermEvent o.fallbackEvents) : EndsWithOneDone (runDockerFoundryM o).1 := by
  obtain ⟨h1, h2⟩ := dockerLoop_stream o ht (MAX_FIX_ATTEMPTS + 1) 0
  unfold runDockerFoundryM
  by_cases hbr : (dockerLoop o (MAX_FIX_ATTEMPTS + 1) 0).2.2 = true
  · rw [if_pos hbr]
    show EndsWithOneDone ((_ :: (dockerLoop o (MAX_FIX_ATTEMPTS + 1) 0).1) ++
      runCommandEmitted "docker" o.fallbackEvents (some TIMEOUT_MS))
    refine endsOne_append ?_ (runCommandEmitted_endsOne hf)
    intro x hx
    rcases List.mem_cons.mp hx with rfl | hx
    · rfl
    · exact h1 hbr x hx
  · rw [if_neg hbr]
    exact endsOne_cons rfl (h2 (by simpa using hbr))

/-- Every entered loop iteration performs at least one build. -/
theorem dockerLoop_builds_pos (o : DockerOracle) (fuel attempt : Nat) :
    1 ≤ (dockerLoop o (fuel + 1) attempt).2.1 := by
  rw [dockerLoop_succ]
  split
  · simp
  · split
    · split
      · simp
      · split
        · simp
        · simp
    · simp

/-- Build-count bound for the docker loop, with the loop invariant
`fuel + attempt = MAX_FIX_ATTEMPTS + 1`: when control falls through to the
fallback (`break`) a build budget of one remains; otherwise at most `fuel`
builds were used. -/
theorem dockerLoop_builds_le (o : DockerOracle) :
    ∀ fuel attempt, fuel + attempt = MAX_FIX_ATTEMPTS + 1 →
      attempt ≤ MAX_FIX_ATTEMPTS →
      ((dockerLoop o fuel attempt).2.2 = true →
        (dockerLoop o fuel attempt).2.1 + 1 ≤ fuel) ∧
      ((dockerLoop o fuel attempt).2.2 = false →
        (dockerLoop o fuel attempt).2.1 ≤ fuel) := by
  intro fuel
  induction fuel with
  | zero =>
    intro attempt hinv hle
    exact ((by omega : False)).elim
  | succ fuel ih =>
    intro attempt hinv hle
    rw [dockerLoop_succ]
    split
    · exact ⟨fun h => absurd h (by simp), fun _ => by dsimp only; omega⟩
    · split
      · rename_i hatt
        split
        · exact ⟨fun _ => by dsimp only; omega, fun h => absurd h (by simp)⟩
        · split
          · exact ⟨fun _ => by dsimp only; omega, fun h => absurd h (by simp)⟩
          · obtain ⟨h1, h2⟩ := ih (attempt + 1) (by omega) (by omega)
            exact ⟨fun hb => by have := h1 hb; dsimp only; omega,
              fun hb => by have := h2 hb; dsimp only; omega⟩
      · exact ⟨fun h => absurd h (by simp), fun _ => by dsimp only; omega⟩

theorem runDockerFoundryM_builds (o : DockerOracle) :
    (runDockerFoundryM o).2 ≤ MAX_FIX_ATTEMPTS + 1 := by
  obtain ⟨h1, h2⟩ := dockerLoop_builds_le o (MAX_FIX_ATTEMPTS + 1) 0 (by omega)
    (Nat.zero_le _)
  unfold runDockerFoundryM
  by_cases hbr : (dockerLoop o (MAX_FIX_ATTEMPTS + 1) 0).2.2 = true
  · rw [if_pos hbr]
    have := h1 hbr
    omega
  · rw [if_neg hbr]
    have := h2 (by simpa using hbr)
    omega

/-- Step equation of `localLoop`. -/
theorem localLoop_succ (o : LocalOracle) (fuel attempt : Nat) :
    localLoop o (fuel + 1) attempt =
      (if (collectOutput "forge" (o.buildEvents attempt) (some TIMEOUT_MS)).2 = 0 then
        (runningBuildChunk :: buildOkChunk ::
          runCommandEmitted "forge" o.testEvents (some TIMEOUT_MS), 1, false)
      else if attempt < MAX_FIX_ATTEMPTS then
        if o.testFileFound attempt = false then
          ([runningBuildChunk, buildFailedChunk attempt], 1, true)
        else
          match o.fixResult attempt with
          | none => ([runningBuildChunk, buildFailedChunk attempt, aiUnavailableChunk],
              1, true)
          | some _ =>
            (runningBuildChunk :: buildFailedChunk attempt ::
                (localLoop o fuel (attempt + 1)).1,
              (localLoop o fuel (attempt + 1)).2.1 + 1,
              (localLoop o fuel (attempt + 1)).2.2)
      else
        ([runningBuildChunk,
          { chunk := (collectOutput "forge" (o.buildEvents attempt)
              (some TIMEOUT_MS)).1 },
          { chunk := "\n", done := true,
            exitCode := some (collectOutput "forge" (o.buildEvents attempt)
              (some TIMEOUT_MS)).2 }], 1, false)) := rfl

theorem localLoop_builds_le (o : LocalOracle) :
    ∀ fuel attempt, fuel + attempt = MAX_FIX_ATTEMPTS + 1 →
      attempt ≤ MAX_FIX_ATTEMPTS →
      ((localLoop o fuel attempt).2.2 = true →
        (localLoop o fuel attempt).2.1 + 1 ≤ fuel) ∧
      ((localLoop o fuel attempt).2.2 = false →
        (localLoop o fuel attempt).2.1 ≤ fuel) := by
  intro fuel
  induction fuel with
  | zero =>
    intro attempt hinv hle
    exact ((by omega : False)).elim
  | succ fuel ih =>
    intro attempt hinv hle
    rw [localLoop_succ]
    split
    · exact ⟨fun h => absurd h (by simp), fun _ => by dsimp only; omega⟩
    · split
      · rename_i hatt
        split
        · exact ⟨fun _ => by dsimp only; omega, fun h => absurd h (by simp)⟩
        · split
          · exact ⟨fun _ => by dsimp only; omega, fun h => absurd h (by simp)⟩
          · obtain ⟨h1, h2⟩ := ih (attempt + 1) (by omega) (by omega)
            exact ⟨fun hb => by have := h1 hb; dsimp only; omega,
              fun hb => by have := h2 hb; dsimp only; omega⟩
      · exact ⟨fun h => absurd h (by simp), fun _ => by dsimp only; omega⟩

theorem runLocalFoundryM_builds (o : LocalOracle) :
    (runLocalFoundryM o).2 ≤ MAX_FIX_ATTEMPTS + 1 := by
  obtain ⟨h1, h2⟩ := localLoop_builds_le o (MAX_FIX_ATTEMPTS + 1) 0 (by omega)
    (Nat.zero_le _)
  unfold runLocalFoundryM
  by_cases hin : (installPhase o (depsList o) 0).2 = false
  · rw [if_pos hin]
    omega
  · rw [if_neg hin]
    by_cases hbr : (localLoop o (MAX_FIX_ATTEMPTS + 1) 0).2.2 = true
    · rw [if_pos hbr]
      have := h1 hbr
      omega
    · rw [if_neg hbr]
      have := h2 (by simpa using hbr)
      omega

/-! ## Claim C1: terminal-chunk discipline -/

/-- **C1 (amended).** In the Docker-sandboxed mode, for every well-formed
process behaviour (each spawned process eventually reports `close` or `error`),
the chunk stream of `runFoundryTests` contains exactly one terminal
(`done = true`) chunk, and no chunk follows it.  (In local mode the guarantee
fails; see the counterexample.) -/
theorem runFoundryTests_docker_one_terminal (o : RunnerOracle) (fs0 : Fs)
    (hm : o.useDocker = true) (hw : o.writeThrows = false)
    (ht : HasTermEvent o.docker.testEvents)
    (hf : HasTermEvent o.docker.fallbackEvents) :
    EndsWithOneDone (runFoundryTestsM o fs0).chunks := by
  have hchunks : (runFoundryTestsM o fs0).chunks =
      StreamChunk.mk ("[prophet] Temp project: " ++ o.tmpDir ++ "\n") false none none ::
        (runDockerFoundryM o.docker).1 := by
    simp [runFoundryTestsM, hw, hm]
  rw [hchunks]
  exact endsOne_cons rfl (runDockerFoundryM_endsOne o.docker ht hf)

/-- Witness for C1 at a concrete docker-mode run. -/
theorem runFoundryTests_docker_one_terminal_witness :
    runnerC1W.useDocker = true ∧ runnerC1W.writeThrows = false ∧
      HasTermEvent runnerC1W.docker.testEvents ∧
      HasTermEvent runnerC1W.docker.fallbackEvents ∧
      EndsWithOneDone (runFoundryTestsM runnerC1W []).chunks :=
  ⟨rfl, rfl, by decide, by decide,
    runFoundryTests_docker_one_terminal runnerC1W [] rfl rfl (by decide) (by decide)⟩

/-- **C1 counterexample.** In local mode a fully successful run already emits
three `done = true` chunks (the forwarded terminal chunks of `git init` and
`forge install`, then the test run's), so the stream does not contain exactly
one terminal chunk, and chunks follow the first terminal chunk. -/
theorem runFoundryTests_local_multi_terminal :
    (runFoundryTestsM runnerC1 []).chunks.countP (fun c => c.done) = 3 ∧
      ¬ EndsWithOneDone (runFoundryTestsM runnerC1 []).chunks := by
  have h3 : (runFoundryTestsM runnerC1 []).chunks.countP (fun c => c.done) = 3 := by
    decide
  refine ⟨h3, fun h => ?_⟩
  rw [endsOne_doneCount h] at h3
  exact absurd h3 (by decide)

/-! ## Claim C3: timeout semantics -/

/-- **C3 (amended).**  (a) A timeout during the *streamed test phase* is
terminal: the stream ends with the timeout-tagged chunk
(`done = true`, `error = "timeout"`) and nothing follows it.  (b) A timeout
during a *build* invocation is absorbed by output collection (exit code `-1`,
no timeout-tagged chunk) and is retried through the fix loop like any other
compile failure: a second build invocation occurs. -/
theorem timeout_test_terminal_build_retried :
    (∀ (o : RunnerOracle) (fs0 : Fs) (pre : List ProcEvent),
      o.useDocker = true → o.writeThrows = false →
      (collectOutput "docker" (o.docker.buildEvents 0) (some TIMEOUT_MS)).2 = 0 →
      o.docker.testEvents = pre ++ [ProcEvent.timeoutEvt] →
      (∀ e ∈ pre, isDataEvent e = true) →
      ∃ nd, (runFoundryTestsM o fs0).chunks = nd ++ [timeoutChunk TIMEOUT_MS] ∧
        ∀ x ∈ nd, x.done = false) ∧
    (∀ (o : RunnerOracle) (fs0 : Fs) (pre : List ProcEvent),
      o.useDocker = true → o.writeThrows = false →
      o.docker.buildEvents 0 = pre ++ [ProcEvent.timeoutEvt] →
      (∀ e ∈ pre, isDataEvent e = true) →
      o.docker.testFileFound 0 = true →
      (o.docker.fixResult 0).isSome = true →
      2 ≤ (runFoundryTestsM o fs0).builds) := by
  constructor
  · intro o fs0 pre hm hw hb0 hte hpre
    obtain ⟨nd0, hemit, hnd0⟩ := (runCommandEmitted_timeout hpre :
      ∃ nd, runCommandEmitted "docker" (pre ++ [ProcEvent.timeoutEvt])
          (some TIMEOUT_MS) = nd ++ [timeoutChunk TIMEOUT_MS] ∧
        ∀ x ∈ nd, x.done = false)
    have hloop : dockerLoop o.docker (MAX_FIX_ATTEMPTS + 1) 0 =
        (buildOkChunk :: runCommandEmitted "docker" o.docker.testEvents
          (some TIMEOUT_MS), 1, false) := by
      rw [show MAX_FIX_ATTEMPTS + 1 = 7 + 1 from rfl, dockerLoop_succ, if_pos hb0]
    have hchunks : (runFoundryTestsM o fs0).chunks =
        StreamChunk.mk ("[prophet] Temp project: " ++ o.tmpDir ++ "\n") false none none ::
          StreamChunk.mk "[prophet] Running in Docker sandbox (prophet-forge)...\n"
            false none none ::
          buildOkChunk ::
          runCommandEmitted "docker" o.docker.testEvents (some TIMEOUT_MS) := by
      simp [runFoundryTestsM, hw, hm, runDockerFoundryM, hloop]
    refine ⟨StreamChunk.mk ("[prophet] Temp project: " ++ o.tmpDir ++ "\n")
        false none none ::
      StreamChunk.mk "[prophet] Running in Docker sandbox (prophet-forge)...\n"
        false none none :: buildOkChunk :: nd0, ?_, ?_⟩
    · rw [hchunks, hte, hemit]
      rfl
    · intro x hx
      rcases List.mem_cons.mp hx with rfl | hx
      · rfl
      · rcases List.mem_cons.mp hx with rfl | hx
        · rfl
        · rcases List.mem_cons.mp hx with rfl | hx
          · rfl
          · exact hnd0 x hx
  · intro o fs0 pre hm hw hbe hpre htf hfix
    have hexit : (collectOutput "docker" (o.docker.buildEvents 0)
        (some TIMEOUT_MS)).2 = -1 := by
      rw [hbe]
      exact collectOutput_timeout hpre
    obtain ⟨v, hv⟩ := Option.isSome_iff_exists.mp hfix
    have hloop : dockerLoop o.docker (MAX_FIX_ATTEMPTS + 1) 0 =
        (buildFailedChunk 0 :: (dockerLoop o.docker 7 (0 + 1)).1,
          (dockerLoop o.docker 7 (0 + 1)).2.1 + 1,
          (dockerLoop o.docker 7 (0 + 1)).2.2) := by
      rw [show MAX_FIX_ATTEMPTS + 1 = 7 + 1 from rfl, dockerLoop_succ]
      rw [if_neg (by rw [hexit]; decide), if_pos (by decide),
        if_neg (by rw [htf]; simp), hv]
    have hpos : 1 ≤ (dockerLoop o.docker 7 (0 + 1)).2.1 :=
      dockerLoop_builds_pos o.docker 6 (0 + 1)
    have hbuilds : (runFoundryTestsM o fs0).builds = (runDockerFoundryM o.docker).2 := by
      simp [runFoundryTestsM, hw, hm]
    rw [hbuilds]
    unfold runDockerFoundryM
    by_cases hbr : (dockerLoop o.docker (MAX_FIX_ATTEMPTS + 1) 0).2.2 = true
    · rw [if_pos hbr, hloop]
      dsimp only
      omega
    · rw [if_neg hbr, hloop]
      dsimp only
      omega

/-- Witness for C3 at concrete runs: (a) a docker run whose build succeeds and
whose test phase times out after one line; (b) a docker run whose first build
times out and is retried. -/
theorem timeout_test_terminal_build_retried_witness :
    ((collectOutput "docker" (runnerC3W.docker.buildEvents 0) (some TIMEOUT_MS)).2 = 0 ∧
      runnerC3W.docker.testEvents =
        [ProcEvent.data "running\n"] ++ [ProcEvent.timeoutEvt] ∧
      ∃ nd, (runFoundryTestsM runnerC3W []).chunks = nd ++ [timeoutChunk TIMEOUT_MS] ∧
        ∀ x ∈ nd, x.done = false) ∧
    (runnerC3W2.docker.buildEvents 0 =
        [ProcEvent.data "Compiling...\n"] ++ [ProcEvent.timeoutEvt] ∧
      2 ≤ (runFoundryTestsM runnerC3W2 []).builds) :=
  ⟨⟨by decide, rfl,
    timeout_test_terminal_build_retried.1 runnerC3W [] [ProcEvent.data "running\n"]
      rfl rfl (by decide) rfl (by decide)⟩,
   ⟨rfl,
    timeout_test_terminal_build_retried.2 runnerC3W2 [] [ProcEvent.data "Compiling...\n"]
      rfl rfl rfl (by decide) rfl (by decide)⟩⟩

/-- **C3 counterexample.** With every build invocation timing out and the
fixer available, the runner performs all `MAX_FIX_ATTEMPTS + 1 = 8` build
invocations (the timed-out invocation **is** retried), and no chunk of the
stream carries the `timeout` error tag — the claim's "explicit timeout tag,
never retried" fails for build-phase timeouts. -/
theorem timeout_build_retried_counterexample :
    (runFoundryTestsM runnerC3 []).builds = 8 ∧
      ∀ c ∈ (runFoundryTestsM runnerC3 []).chunks, c.error ≠ some "timeout" := by
  decide

/-! ## Claim C4: bounded build attempts -/

/-- **C4.** Every execution of `runFoundryTests`, in either mode and for every
environment behaviour, performs at most `MAX_FIX_ATTEMPTS + 1` `forge build`
invocations before producing its terminal result. -/
theorem runFoundryTests_builds_bounded (o : RunnerOracle) (fs0 : Fs) :
    (runFoundryTestsM o fs0).builds ≤ MAX_FIX_ATTEMPTS + 1 := by
  unfold runFoundryTestsM
  by_cases hw : o.writeThrows = true
  · rw [if_pos hw]
    dsimp only
    omega
  · rw [if_neg hw]
    by_cases hm : o.useDocker = true
    · rw [if_pos hm]
      dsimp only
      exact runDockerFoundryM_builds o.docker
    · rw [if_neg hm]
      dsimp only
      exact runLocalFoundryM_builds o.loc

/-! ## Claim C8: guaranteed workspace cleanup -/

/-- **C8.** For every environment behaviour and outcome (success, failure,
exception), when the final `rmSync` succeeds no path under the per-request
workspace remains afterwards; and the outcome of the cleanup (success or
swallowed failure) has no effect on the reported chunks, exception status, or
build count. -/
theorem runFoundryTests_cleanup (o : RunnerOracle) (fs0 : Fs) (b1 b2 : Bool) :
    (∀ p ∈ (runFoundryTestsM { o with rmOk := true } fs0).fs,
      underDir o.tmpDir p = false) ∧
    (runFoundryTestsM { o with rmOk := b1 } fs0).chunks =
      (runFoundryTestsM { o with rmOk := b2 } fs0).chunks ∧
    (runFoundryTestsM { o with rmOk := b1 } fs0).threw =
      (runFoundryTestsM { o with rmOk := b2 } fs0).threw ∧
    (runFoundryTestsM { o with rmOk := b1 } fs0).builds =
      (runFoundryTestsM { o with rmOk := b2 } fs0).builds := by
  refine ⟨?_, rfl, rfl, rfl⟩
  intro p hp
  have hfs : (runFoundryTestsM { o with rmOk := true } fs0).fs =
      rmRf o.tmpDir (writeFs { o with rmOk := true } fs0) := by
    simp [runFoundryTestsM]
  rw [hfs] at hp
  unfold rmRf at hp
  simpa using List.of_mem_filter hp

/-! ## Claim C2: validated calls reference the interface -/

/-- **C2 (amended).** Every call step surviving `validatePlan` is either the
reserved `attack` step of the attacker contract, or names a function of the
interface; and it carries a *non-empty* `value` only when the function resolved
by the validator's lookup is payable.  (An empty-string `value` on a
non-payable call is preserved, because the validator's `step.value &&` check
uses JS truthiness; hence the claim restricted to `value` *fields* fails, see
the counterexample.) -/
theorem validatedCalls_in_interface (p : AttackPlan) (i : ContractInterface)
    (t : TestPlan) (ht : t ∈ (validatePlan p i).tests)
    (s : CallStep) (hs : s ∈ t.setup ++ t.attack) :
    (s.as = Actor.attacker_contract ∧ s.call = "attack") ∨
      (s.call ∈ fnNames i ∧
        (optTruthy s.value = true →
          ∃ fn, fnMapGet i s.call = some fn ∧ fn.mutability = Mutability.mpayable)) :=
  validatedStep_shape ht hs

/-- Witness for C2 at a concrete validated plan. -/
theorem validatedCalls_in_interface_witness :
    testC2W ∈ (validatePlan planC2W ifaceC2W).tests ∧
      (⟨Actor.user, "pay", none, some "1 ether"⟩ : CallStep) ∈
        testC2W.setup ++ testC2W.attack ∧
      ((Actor.user = Actor.attacker_contract ∧ "pay" = "attack") ∨
        ("pay" ∈ fnNames ifaceC2W ∧
          (optTruthy (some "1 ether") = true →
            ∃ fn, fnMapGet ifaceC2W "pay" = some fn ∧
              fn.mutability = Mutability.mpayable))) :=
  ⟨by decide, by decide,
    validatedCalls_in_interface planC2W ifaceC2W testC2W (by decide)
      ⟨Actor.user, "pay", none, some "1 ether"⟩ (by decide)⟩

/-- **C2 counterexample.** A step calling the non-payable `foo` with
`value: ""` survives `validatePlan` with its `value` field intact (the empty
string is falsy, so the stripping branch is skipped): a validated `CallStep`
carries a `value` field although the matched function is not payable. -/
theorem validatePlan_keeps_empty_value :
    ∃ t ∈ (validatePlan planC2 ifaceC2).tests, ∃ s ∈ t.attack,
      ¬(s.as = Actor.attacker_contract ∧ s.call = "attack") ∧
      s.call ∈ fnNames ifaceC2 ∧ s.value.isSome = true ∧
      ∀ fn ∈ ifaceC2.functions, fn.name = s.call →
        fn.mutability ≠ Mutability.mpayable := by
  decide

/-! ## Claim C5: value clauses in rendered calls -/

/-- **C5 (amended).** For a plan that passed `validatePlan`, a surviving
non-attacker step whose `call` resolves to a non-payable function renders
exactly as the value-stripped step renders — in particular with no
`{value: ...}` clause.  The redundancy does *not* extend to directly
constructed plans that bypassed validation: `generateCallCode` emits a value
clause for any truthy `value`, regardless of mutability (see the
counterexample). -/
theorem validated_nonpayable_renders_no_value (p : AttackPlan)
    (i : ContractInterface) (t : TestPlan) (ht : t ∈ (validatePlan p i).tests)
    (s : CallStep) (hs : s ∈ t.setup ++ t.attack)
    (hna : ¬(s.as = Actor.attacker_contract ∧ s.call = "attack"))
    (hnp : ∀ fn, fnMapGet i s.call = some fn → fn.mutability ≠ Mutability.mpayable) :
    generateCallCode s i = generateCallCode { s with value := none } i := by
  have hv : optTruthy s.value = false := by
    rcases hb : optTruthy s.value with _ | _
    · rfl
    · rcases validatedStep_shape ht hs with h | ⟨_, himp⟩
      · exact absurd h hna
      · obtain ⟨fn, hget, hpay⟩ := himp hb
        exact absurd hpay (hnp fn hget)
  have h3 : callValueStr s = callValueStr { s with value := none } := by
    unfold callValueStr
    rw [hv]
    rfl
  unfold generateCallCode
  rw [h3]
  rfl

/-- Witness for C5 at a concrete validated plan (the validator stripped the
`value` from the non-payable call, so both renderings coincide). -/
theorem validated_nonpayable_renders_no_value_witness :
    testC5W ∈ (validatePlan planC5W ifaceC5W).tests ∧
      stepC5W ∈ testC5W.setup ++ testC5W.attack ∧
      ¬(stepC5W.as = Actor.attacker_contract ∧ stepC5W.call = "attack") ∧
      (∀ fn, fnMapGet ifaceC5W stepC5W.call = some fn →
        fn.mutability ≠ Mutability.mpayable) ∧
      generateCallCode stepC5W ifaceC5W =
        generateCallCode { stepC5W with value := none } ifaceC5W :=
  ⟨by decide, by decide, by decide, by decide,
    validated_nonpayable_renders_no_value planC5W ifaceC5W testC5W (by decide)
      stepC5W (by decide) (by decide) (by decide)⟩

set_option maxRecDepth 10000 in
/-- **C5 counterexample.** For a directly-constructed plan that did not pass
through `validatePlan`, `generateCallCode` renders an explicit
`{value: 1 ether}` clause on a call to the non-payable `foo`, and the clause
reaches the output of `generateSolidityFromPlan`: the claimed
defense-in-depth check does not exist in the synthesizer. -/
theorem generateCallCode_value_on_nonpayable :
    (∀ fn ∈ ifaceC5.functions, fn.mutability ≠ Mutability.mpayable) ∧
      generateCallCode stepC5 ifaceC5 =
        "        vm.prank(user);\n        target.foo\x7bvalue: 1 ether\x7d();" ∧
      generateCallCode stepC5 ifaceC5 ≠
        generateCallCode { stepC5 with value := none } ifaceC5 ∧
      containsSub "target.foo\x7bvalue: 1 ether\x7d"
        (generateSolidityFromPlan planC5 ifaceC5) = true := by
  decide

/-! ## Claim C7: shape of the synthesized source -/

theorem countChar_append (c : Char) (a b : String) :
    countChar c (a ++ b) = countChar c a + countChar c b := by
  simp [countChar, String.data_append]

theorem braceBal_append (a b : String) :
    braceBal (a ++ b) = braceBal a + braceBal b := by
  simp [braceBal, countChar_append]
  omega

theorem braceFree_bal {s : String} (h : braceFree s) : braceBal s = 0 := by
  simp [braceBal, h.1, h.2]

theorem braceBal_jsJoin (sep : String) (hsep : braceBal sep = 0) :
    ∀ l : List String, braceBal (jsJoin sep l) = (l.map braceBal).sum := by
  intro l
  induction l with
  | nil => simp [jsJoin, braceBal, countChar]
  | cons a t ih =>
    cases t with
    | nil => simp [jsJoin]
    | cons b t2 =>
      rw [show jsJoin sep (a :: b :: t2) = a ++ sep ++ jsJoin sep (b :: t2) from rfl,
        braceBal_append, braceBal_append, hsep, ih]
      simp

theorem braceBal_join_zero (sep : String) (hsep : braceBal sep = 0)
    {l : List String} (h : ∀ a ∈ l, braceBal a = 0) : braceBal (jsJoin sep l) = 0 := by
  rw [braceBal_jsJoin sep hsep]
  exact List.sum_eq_zero fun x hx => by
    obtain ⟨a, ha, rfl⟩ := List.mem_map.mp hx
    exact h a ha

theorem braceBal_callValueStr {s : CallStep} (h : braceFree (s.value.getD "")) :
    braceBal (callValueStr s) = 0 := by
  unfold callValueStr
  split
  · rw [braceBal_append, braceBal_append, braceFree_bal h]
    decide
  · decide

theorem braceBal_actorName (a : Actor) : braceBal (actorName a) = 0 := by
  cases a <;> decide

theorem braceBal_generateCallCode {s : CallStep} (i : ContractInterface)
    (h : stepBF s) : braceBal (generateCallCode s i) = 0 := by
  obtain ⟨hcall, hargs, hval⟩ := h
  have hv : braceBal (callValueStr s) = 0 := braceBal_callValueStr hval
  have hargs0 : braceBal (callArgsStr s) = 0 := by
    unfold callArgsStr
    exact braceBal_join_zero ", " (by decide) fun a ha => braceFree_bal (hargs a ha)
  unfold generateCallCode
  split
  · split
    · rw [braceBal_append, braceBal_append, hv]
      decide
    · rw [braceBal_append, braceBal_append, hv]
      decide
  · simp only [braceBal_append]
    rw [hv, hargs0, braceFree_bal hcall, braceBal_actorName]
    decide

theorem braceBal_generateAssertionCode {a : Assertion} (h : assertionBF a) :
    braceBal (generateAssertionCode a) = 0 := by
  obtain ⟨ty, l, r, m⟩ := a
  obtain ⟨hl, hr, hm⟩ := h
  have hmsg : braceBal (assertionMsgStr ⟨ty, l, r, m⟩) = 0 := by
    unfold assertionMsgStr
    split
    · rw [braceBal_append, braceBal_append, braceFree_bal hm]
      decide
    · decide
  cases ty with
  | assertTrue =>
    simp only [generateAssertionCode, braceBal_append]
    rw [hmsg, braceFree_bal hl]
    decide
  | assertEq =>
    simp only [generateAssertionCode, braceBal_append]
    rw [hmsg, braceFree_bal hl, braceFree_bal hr]
    decide
  | assertLt =>
    simp only [generateAssertionCode, braceBal_append]
    rw [hmsg, braceFree_bal hl, braceFree_bal hr]
    decide
  | assertGt =>
    simp only [generateAssertionCode, braceBal_append]
    rw [hmsg, braceFree_bal hl, braceFree_bal hr]
    decide

theorem braceBal_generateTestFunction {t : TestPlan} (i : ContractInterface)
    (h : testBF t) : braceBal (generateTestFunction t i) = 0 := by
  obtain ⟨hn, hd, hsu, hat, has⟩ := h
  unfold generateTestFunction
  rw [braceBal_jsJoin "\n" (by decide)]
  unfold testFnLines
  simp only [List.map_append, List.sum_append]
  have h1 : braceBal ("    function " ++ t.name ++ "() public \x7b") = 1 := by
    rw [braceBal_append, braceBal_append, braceFree_bal hn]
    decide
  have h2 : ((if optTruthy t.description
      then ["        // " ++ t.description.getD ""] else []).map braceBal).sum = 0 := by
    split
    · simp only [List.map_cons, List.map_nil, List.sum_cons, List.sum_nil,
        braceBal_append, braceFree_bal hd]
      decide
    · simp
  have h3 : ((t.setup.map (generateCallCode · i)).map braceBal).sum = 0 :=
    List.sum_eq_zero fun x hx => by
      simp only [List.map_map, List.mem_map] at hx
      obtain ⟨s, hs, rfl⟩ := hx
      exact braceBal_generateCallCode i (hsu s hs)
  have h4 : ((t.attack.map (generateCallCode · i)).map braceBal).sum = 0 :=
    List.sum_eq_zero fun x hx => by
      simp only [List.map_map, List.mem_map] at hx
      obtain ⟨s, hs, rfl⟩ := hx
      exact braceBal_generateCallCode i (hat s hs)
  have h5 : ((t.assertions.map generateAssertionCode).map braceBal).sum = 0 :=
    List.sum_eq_zero fun x hx => by
      simp only [List.map_map, List.mem_map] at hx
      obtain ⟨a, ha, rfl⟩ := hx
      exact braceBal_generateAssertionCode (has a ha)
  have h6 : ∀ (c : Bool), (((if c = true then [""] else []).map braceBal).sum = 0) := by
    intro c
    cases c <;> simp [braceBal, countChar]
  rw [h2, h3, h4, h5, h6, h6]
  simp only [List.map_cons, List.map_nil, List.sum_cons, List.sum_nil, h1]
  decide

theorem braceBal_ctorArg (p : Param) : braceBal (ctorArg p) = 0 := by
  unfold ctorArg
  split
  · decide
  · split
    · decide
    · split
      · decide
      · split
        · decide
        · split <;> decide

theorem braceBal_attackerArg (p : Param) : braceBal (attackerArg p) = 0 := by
  unfold attackerArg
  split
  · decide
  · split
    · decide
    · split <;> decide

theorem braceBal_generateSetUp (i : ContractInterface) (b : Bool)
    (hi : braceFree i.name) : braceBal (generateSetUp i b) = 0 := by
  have hargs : braceBal (setUpCtorArgs i) = 0 := by
    unfold setUpCtorArgs
    exact braceBal_join_zero ", " (by decide) fun a ha => by
      obtain ⟨p, _, rfl⟩ := List.mem_map.mp ha
      exact braceBal_ctorArg p
  have hvs : braceBal (setUpValueStr i) = 0 := by
    unfold setUpValueStr
    split <;> decide
  have hna : braceBal (if b then
      "\n        attacker = new Attacker(payable(address(target)));\n        vm.deal(address(attacker), 10 ether);"
    else "") = 0 := by
    split <;> decide
  unfold generateSetUp
  simp only [braceBal_append]
  rw [hargs, hvs, hna, braceFree_bal hi]
  decide

theorem braceBal_generateAttackerContract (i : ContractInterface) (r : String)
    (hi : braceFree i.name) (hr : braceFree r) :
    braceBal (generateAttackerContract i r) = 0 := by
  have hargs : braceBal (attackerCallArgs i r) = 0 := by
    unfold attackerCallArgs
    split
    · exact braceBal_join_zero ", " (by decide) fun a ha => by
        obtain ⟨p, _, rfl⟩ := List.mem_map.mp ha
        exact braceBal_attackerArg p
    · decide
  have hvs : braceBal (attackerValueSnippet i r) = 0 := by
    unfold attackerValueSnippet
    split <;> decide
  have hdl : braceBal (attackerDepositLine i) = 0 := by
    unfold attackerDepositLine
    split <;> decide
  unfold generateAttackerContract
  simp only [braceBal_append]
  rw [hargs, hvs, hdl, braceFree_bal hi, braceFree_bal hr]
  decide

theorem braceBal_flatMapTests (i : ContractInterface) :
    ∀ l : List TestPlan, (∀ t ∈ l, testBF t) →
      ((l.flatMap fun t => [generateTestFunction t i, ""]).map braceBal).sum = 0 := by
  intro l
  induction l with
  | nil => intro _; simp
  | cons t rest ih =>
    intro hl
    rw [List.flatMap_cons, List.map_append, List.sum_append,
      ih fun x hx => hl x (List.mem_cons_of_mem t hx)]
    simp only [List.map_cons, List.map_nil, List.sum_cons, List.sum_nil,
      braceBal_generateTestFunction i (hl t (List.mem_cons_self t rest))]
    decide

/-- Brace balance of the full synthesized source, for any plan and interface
whose strings are brace-free. -/
theorem braceBal_generateSolidityFromPlan (plan : AttackPlan)
    (i : ContractInterface) (hi : ifaceBF i) (ht : ∀ t ∈ plan.tests, testBF t)
    (ha : braceFree (plan.attackerReentersFunction.getD "")) :
    braceBal (generateSolidityFromPlan plan i) = 0 := by
  unfold generateSolidityFromPlan
  rw [braceBal_jsJoin "\n" (by decide)]
  unfold solidityParts
  simp only [List.map_append, List.sum_append]
  have hAtt : ((if wantsAttacker plan = true then
      [generateAttackerContract i (plan.attackerReentersFunction.getD ""), ""]
    else []).map braceBal).sum = 0 := by
    split
    · simp only [List.map_cons, List.map_nil, List.sum_cons, List.sum_nil,
        braceBal_generateAttackerContract i _ hi.1 ha]
      decide
    · simp
  have hAtt2 : ((if wantsAttacker plan = true then ["    Attacker public attacker;"]
      else []).map braceBal).sum = 0 := by
    split <;> simp [braceBal, countChar]
  have hTests : ((plan.tests.flatMap fun t =>
      [generateTestFunction t i, ""]).map braceBal).sum = 0 :=
    braceBal_flatMapTests i plan.tests ht
  rw [hAtt, hAtt2, hTests]
  simp only [List.map_cons, List.map_nil, List.sum_cons, List.sum_nil,
    braceBal_append, braceFree_bal hi.1,
    braceBal_generateSetUp i _ hi.1]
  decide

theorem headerLine_ne {i : ContractInterface} {s : String}
    (h : s.data.head? ≠ some 'c') : headerLine i ≠ s := by
  intro he
  apply h
  rw [← he]
  rfl

theorem headerLine_ne' {i : ContractInterface} {s : String} {c : Char}
    (hs : s.data.head? = some c) (hc : c ≠ 'c') : headerLine i ≠ s :=
  headerLine_ne (by rw [hs]; simp [hc])

theorem jsJoin_head {sep a : String} {r : List String} {c : Char}
    (ha : a.data.head? = some c) : (jsJoin sep (a :: r)).data.head? = some c := by
  cases r with
  | nil => exact ha
  | cons b r2 =>
    rw [show jsJoin sep (a :: b :: r2) = a ++ sep ++ jsJoin sep (b :: r2) from rfl,
      String.data_append, String.data_append]
    cases hd : a.data with
    | nil => rw [hd] at ha; exact absurd ha (by simp)
    | cons x t =>
      rw [hd] at ha
      simpa using ha

theorem headerLine_ne_testFn (i : ContractInterface) (t : TestPlan) :
    headerLine i ≠ generateTestFunction t i :=
  headerLine_ne' (jsJoin_head (show ("    function " ++ t.name ++
    "() public \x7b").data.head? = some ' ' from rfl)) (by decide)

set_option maxRecDepth 8192 in
theorem headerLine_ne_attacker (i : ContractInterface) (r : String)
    (hnl : '\n' ∉ i.name.data) : headerLine i ≠ generateAttackerContract i r := by
  intro he
  have h1 : '\n' ∉ (headerLine i).data := by
    unfold headerLine
    rw [String.data_append, String.data_append]
    intro hmem
    rcases List.mem_append.mp hmem with h | h
    · rcases List.mem_append.mp h with h | h
      · exact absurd h (by decide)
      · exact hnl h
    · exact absurd h (by decide)
  apply h1
  rw [he]
  unfold generateAttackerContract
  simp only [String.data_append]
  repeat apply List.mem_append_left
  decide

theorem count_header_flatMapTests (i : ContractInterface) (l : List TestPlan) :
    (l.flatMap fun t => [generateTestFunction t i, ""]).count (headerLine i) = 0 := by
  rw [List.count_eq_zero]
  intro hmem
  rw [List.mem_flatMap] at hmem
  obtain ⟨t, _, hm⟩ := hmem
  rcases List.mem_cons.mp hm with h | h
  · exact headerLine_ne_testFn i t h
  · rw [List.mem_singleton] at h
    exact headerLine_ne (by decide) h

/-- The parts of the synthesized source contain the test-contract declaration
line exactly once (one test contract in total, however many tests survive). -/
theorem count_headerLine (plan : AttackPlan) (i : ContractInterface)
    (hnl : '\n' ∉ i.name.data) :
    (solidityParts plan i).count (headerLine i) = 1 := by
  unfold solidityParts
  simp only [List.count_append]
  have hPre : ([ "// SPDX-License-Identifier: MIT", "pragma solidity ^0.8.20;", "",
      "import \"forge-std/Test.sol\";", "import \"../src/" ++ i.name ++ ".sol\";",
      ""] : List String).count (headerLine i) = 0 := by
    rw [List.count_eq_zero]
    intro hmem
    simp only [List.mem_cons, List.not_mem_nil, or_false] at hmem
    rcases hmem with h | h | h | h | h | h
    · exact headerLine_ne (by decide) h
    · exact headerLine_ne (by decide) h
    · exact headerLine_ne (by decide) h
    · exact headerLine_ne (by decide) h
    · exact headerLine_ne' (show ("import \"../src/" ++ i.name ++ ".sol\";").data.head? =
        some 'i' from rfl) (by decide) h
    · exact headerLine_ne (by decide) h
  have hAtt : (if wantsAttacker plan = true then
      [generateAttackerContract i (plan.attackerReentersFunction.getD ""), ""]
    else []).count (headerLine i) = 0 := by
    split
    · rw [List.count_eq_zero]
      intro hmem
      rcases List.mem_cons.mp hmem with h | h
      · exact headerLine_ne_attacker i _ hnl h
      · rw [List.mem_singleton] at h
        exact headerLine_ne (by decide) h
    · rfl
  have hHd : (["contract " ++ i.name ++ "Test is Test \x7b",
      "    " ++ i.name ++ " public target;"] :
      List String).count (headerLine i) = 1 := by
    have hfirst : "contract " ++ i.name ++ "Test is Test \x7b" = headerLine i := rfl
    rw [hfirst]
    have hne : headerLine i ≠ "    " ++ i.name ++ " public target;" :=
      headerLine_ne' (show ("    " ++ i.name ++ " public target;").data.head? =
        some ' ' from rfl) (by decide)
    simp [List.count_cons, beq_iff_eq, hne]
  have hAtt2 : (if wantsAttacker plan = true then ["    Attacker public attacker;"]
      else []).count (headerLine i) = 0 := by
    split
    · rw [List.count_eq_zero]
      intro hmem
      rw [List.mem_singleton] at hmem
      exact headerLine_ne (by decide) hmem
    · rfl
  have hMid : ([ "    address public owner = address(0x1);",
      "    address public user = address(0x2);",
      "    address public thief = address(0x3);", "",
      generateSetUp i (wantsAttacker plan), ""] : List String).count
        (headerLine i) = 0 := by
    rw [List.count_eq_zero]
    intro hmem
    simp only [List.mem_cons, List.not_mem_nil, or_false] at hmem
    rcases hmem with h | h | h | h | h | h
    · exact headerLine_ne (by decide) h
    · exact headerLine_ne (by decide) h
    · exact headerLine_ne (by decide) h
    · exact headerLine_ne (by decide) h
    · exact headerLine_ne' (show (generateSetUp i (wantsAttacker plan)).data.head? =
        some ' ' from rfl) (by decide) h
    · exact headerLine_ne (by decide) h
  have hEnd : (["\x7d"] : List String).count (headerLine i) = 0 := by
    rw [List.count_eq_zero]
    intro hmem
    rw [List.mem_singleton] at hmem
    exact headerLine_ne (by decide) hmem
  rw [hPre, hAtt, hHd, hAtt2, hMid, hEnd, count_header_flatMapTests]

/-- The rendered test functions appear, in order, among the parts of the
synthesized source: one per surviving `TestPlan`. -/
theorem testFns_sublist (plan : AttackPlan) (i : ContractInterface) :
    ((plan.tests.map fun t => generateTestFunction t i)).Sublist
      (solidityParts plan i) := by
  have h1 : ∀ l : List TestPlan, ((l.map fun t => generateTestFunction t i)).Sublist
      (l.flatMap fun t => [generateTestFunction t i, ""]) := by
    intro l
    induction l with
    | nil => simp
    | cons t rest ih =>
      rw [List.map_cons, List.flatMap_cons]
      exact List.Sublist.cons₂ _ (List.Sublist.cons _ ih)
  refine (h1 plan.tests).trans ?_
  unfold solidityParts
  exact (List.sublist_append_right _ _).trans (List.sublist_append_left _ _)

/-- **C7 (amended).** For every plan and interface, provided no string of the
*validated* plan or of the interface contains a brace character (untrusted
strings flow verbatim into the output, so a brace inside a description or
argument unbalances it — see the counterexample) and the contract name has no
newline, the synthesized source has balanced braces; moreover its parts contain
the test-suffixed contract declaration exactly **once in total** (not once per
surviving `TestPlan`), and one rendered test function per surviving `TestPlan`,
in order. -/
theorem validated_synthesis_shape (p : AttackPlan) (i : ContractInterface)
    (hi : ifaceBF i) (ht : ∀ t ∈ (validatePlan p i).tests, testBF t)
    (ha : braceFree ((validatePlan p i).attackerReentersFunction.getD ""))
    (hnl : '\n' ∉ i.name.data) :
    braceBal (generateSolidityFromPlan (validatePlan p i) i) = 0 ∧
      (solidityParts (validatePlan p i) i).count (headerLine i) = 1 ∧
      ((validatePlan p i).tests.map fun t => generateTestFunction t i).Sublist
        (solidityParts (validatePlan p i) i) :=
  ⟨braceBal_generateSolidityFromPlan _ i hi ht ha,
   count_headerLine _ i hnl, testFns_sublist _ i⟩

set_option maxRecDepth 40000 in
/-- Witness for C7 at a concrete brace-free plan. -/
theorem validated_synthesis_shape_witness :
    (ifaceBF ifaceC7 ∧ (∀ t ∈ (validatePlan planC7W ifaceC7).tests, testBF t) ∧
      braceFree ((validatePlan planC7W ifaceC7).attackerReentersFunction.getD "") ∧
      '\n' ∉ ifaceC7.name.data) ∧
    (braceBal (generateSolidityFromPlan (validatePlan planC7W ifaceC7) ifaceC7) = 0 ∧
      (solidityParts (validatePlan planC7W ifaceC7) ifaceC7).count
        (headerLine ifaceC7) = 1 ∧
      ((validatePlan planC7W ifaceC7).tests.map fun t =>
        generateTestFunction t ifaceC7).Sublist
        (solidityParts (validatePlan planC7W ifaceC7) ifaceC7)) :=
  ⟨⟨by decide, by decide, by decide, by decide⟩,
   validated_synthesis_shape planC7W ifaceC7 (by decide) (by decide) (by decide)
     (by decide)⟩

set_option maxRecDepth 40000 in
/-- **C7 counterexample.** A validated plan whose (surviving) test has the
description `"{"` synthesizes a source whose brace counts differ; and a plan
with two surviving tests still yields exactly one test-suffixed contract
declaration, not one per `TestPlan`. -/
theorem synthesis_unbalanced_braces :
    braceBal (generateSolidityFromPlan (validatePlan planC7 ifaceC7) ifaceC7) ≠ 0 ∧
      (validatePlan planC7b ifaceC7).tests.length = 2 ∧
      (solidityParts (validatePlan planC7b ifaceC7) ifaceC7).count
        (headerLine ifaceC7) = 1 := by
  refine ⟨by decide, by decide, by decide⟩


/-! ## Lemmas for the interface extractor (C9) -/

theorem lower_word {c : Char} (h : c.isLower = true) : isWordChar c = true := by
  simp [isWordChar, Char.isAlpha, h]

theorem lower_not_ws {c : Char} (h : c.isLower = true) : jsIsSpace c = false := by
  rcases hws : jsIsSpace c with _ | _
  · rfl
  · exfalso
    unfold jsIsSpace at hws
    simp [Char.isWhitespace] at hws
    rcases hws with ((rfl | rfl) | rfl) | rfl <;> exact absurd h (by decide)

theorem lower_ne {c : Char} (h : c.isLower = true) {d : Char} (hd : d.isLower = false) :
    c ≠ d := by
  intro he
  rw [he, hd] at h
  cases h

theorem takeWhile_stop {p : Char → Bool} {xs ys : List Char} {y : Char}
    (hxs : ∀ a ∈ xs, p a = true) (hy : p y = false) :
    (xs ++ y :: ys).takeWhile p = xs := by
  induction xs with
  | nil => simp [List.takeWhile_cons, hy]
  | cons a t ih =>
    have ha := hxs a (List.mem_cons_self a t)
    simp [List.takeWhile_cons, ha,
      ih fun b hb => hxs b (List.mem_cons_of_mem a hb)]

theorem dropWhile_stop {p : Char → Bool} {xs ys : List Char} {y : Char}
    (hxs : ∀ a ∈ xs, p a = true) (hy : p y = false) :
    (xs ++ y :: ys).dropWhile p = y :: ys := by
  induction xs with
  | nil => simp [List.dropWhile_cons, hy]
  | cons a t ih =>
    have ha := hxs a (List.mem_cons_self a t)
    simp [List.dropWhile_cons, ha,
      ih fun b hb => hxs b (List.mem_cons_of_mem a hb)]

theorem isPrefixOf_cons_ne {a c : Char} (w t : List Char) (h : ¬ c = a) :
    (a :: w).isPrefixOf (c :: t) = false := by
  have hb : (a == c) = false := beq_eq_false_iff_ne.mpr fun he => h he.symm
  simp [List.isPrefixOf, hb]

theorem tryFn_cons_ne {c : Char} (t : List Char) (h : ¬ c = 'f') :
    tryFn (c :: t) = none := by
  have hb : ("function".data.isPrefixOf (c :: t)) = false := by
    rw [show "function".data = 'f' :: "unction".data from rfl]
    exact isPrefixOf_cons_ne _ _ h
  simp [tryFn, hb]

theorem tryFn_rest_length {l : List Char} {e : List Char × List Char × List Char}
    {rest : List Char} (h : tryFn l = some (e, rest)) : rest.length < l.length := by
  have hp : "function".data.isPrefixOf l = true := by
    by_contra hb
    rw [Bool.not_eq_true] at hb
    simp [tryFn, hb] at h
  have hlen : 8 ≤ l.length := by
    have := (List.isPrefixOf_iff_prefix.mp hp).length_le
    simpa using this
  simp only [tryFn, hp, if_true] at h
  split at h
  · exact absurd h (by simp)
  · split at h
    · exact absurd h (by simp)
    · split at h
      · exact absurd h (by simp)
      · rename_i c r4 heq1
        split at h
        · split at h
          · exact absurd h (by simp)
          · rename_i c2 r6 heq2
            split at h
            · rw [Option.some_inj] at h
              have hrest : (List.dropWhile jsIsSpace r6).dropWhile
                  (fun c => c != '\x7b' && c != ';') = rest := congrArg Prod.snd h
              have h1 : rest.length ≤ r6.length := by
                rw [← hrest]
                exact le_trans (List.dropWhile_sublist _).length_le
                  (List.dropWhile_sublist _).length_le
              have h2 : r6.length + 1 ≤ r4.length := by
                have hh : (List.dropWhile (fun c => c != ')') r4).length ≤ r4.length :=
                  (List.dropWhile_sublist _).length_le
                rw [heq2] at hh
                simpa using hh
              have h3 : r4.length + 1 ≤ (l.drop 8).length := by
                have d1 : (List.dropWhile jsIsSpace (List.dropWhile isWordChar
                    (List.dropWhile jsIsSpace (List.drop 8 l)))).length ≤
                    (List.dropWhile isWordChar
                      (List.dropWhile jsIsSpace (List.drop 8 l))).length :=
                  (List.dropWhile_sublist _).length_le
                have d2 : (List.dropWhile isWordChar
                    (List.dropWhile jsIsSpace (List.drop 8 l))).length ≤
                    (List.dropWhile jsIsSpace (List.drop 8 l)).length :=
                  (List.dropWhile_sublist _).length_le
                have d3 : (List.dropWhile jsIsSpace (List.drop 8 l)).length ≤
                    (List.drop 8 l).length :=
                  (List.dropWhile_sublist _).length_le
                rw [heq1] at d1
                simp at d1
                omega
              rw [List.length_drop] at h3
              omega
            · exact absurd h (by simp)
        · exact absurd h (by simp)

theorem fnScan_cons_ne {c : Char} (t : List Char) (h : ¬ c = 'f') :
    fnScan (c :: t) = fnScan t := by
  show fnScanAux (c :: t).length (c :: t) = fnScanAux t.length t
  simp only [List.length_cons, fnScanAux, tryFn_cons_ne t h]

theorem fnScan_append_skip {pre : List Char} (h : ∀ c ∈ pre, ¬ c = 'f')
    (l : List Char) : fnScan (pre ++ l) = fnScan l := by
  induction pre with
  | nil => rfl
  | cons c t ih =>
    rw [List.cons_append, fnScan_cons_ne _ (h c (List.mem_cons_self c t)),
      ih fun b hb => h b (List.mem_cons_of_mem c hb)]

theorem fnScan_all_skip {l : List Char} (h : ∀ c ∈ l, ¬ c = 'f') :
    fnScan l = [] := by
  have := fnScan_append_skip h ([] : List Char)
  simpa using this

theorem fnScanAux_fuel :
    ∀ (fuel : Nat) (l : List Char), l.length ≤ fuel →
      fnScanAux fuel l = fnScanAux l.length l := by
  intro fuel
  induction fuel using Nat.strong_induction_on with
  | _ fuel ih =>
    intro l hl
    cases fuel with
    | zero =>
      have hnil : l = [] := List.length_eq_zero.mp (Nat.le_zero.mp hl)
      subst hnil
      rfl
    | succ fuel =>
      cases l with
      | nil => simp [fnScanAux, show tryFn [] = none from rfl]
      | cons c t =>
        have hlt : t.length ≤ fuel := by simpa using hl
        cases htry : tryFn (c :: t) with
        | some er =>
          obtain ⟨e, rest⟩ := er
          have hr : rest.length ≤ t.length := by
            have := tryFn_rest_length htry
            simp at this
            omega
          simp only [List.length_cons, fnScanAux, htry]
          rw [ih fuel (Nat.lt_succ_self _) rest (le_trans hr hlt),
            ih t.length (Nat.lt_succ_of_le hlt) rest hr]
        | none =>
          simp only [List.length_cons, fnScanAux, htry]
          exact ih fuel (Nat.lt_succ_self _) t hlt

theorem fnScan_match {l rest : List Char} {e : List Char × List Char × List Char}
    (h : tryFn l = some (e, rest)) : fnScan l = e :: fnScan rest := by
  cases l with
  | nil => simp [tryFn] at h
  | cons c t =>
    have hr : rest.length ≤ t.length := by
      have := tryFn_rest_length h
      simp at this
      omega
    show fnScanAux (c :: t).length (c :: t) = e :: fnScanAux rest.length rest
    simp only [List.length_cons, fnScanAux, h]
    rw [fnScanAux_fuel t.length rest hr]
theorem isPrefixOf_append_self (w r : List Char) : w.isPrefixOf (w ++ r) = true := by
  induction w with
  | nil => simp [List.isPrefixOf]
  | cons a t ih => simp [List.isPrefixOf, ih]

theorem tryFn_render (n0 : Char) (nm' ps : List Char) (q0 : Char) (q' tail : List Char)
    (hnm : ∀ c ∈ n0 :: nm', c.isLower = true)
    (hps : ∀ c ∈ ps, c.isLower = true ∨ c = ' ' ∨ c = ',')
    (hq0 : q0.isLower = true)
    (hq : ∀ c ∈ q0 :: q', c.isLower = true ∨ c = ' ') :
    tryFn ("function".data ++ ' ' :: n0 :: (nm' ++ '(' :: (ps ++ ')' :: ' ' ::
        ((q0 :: (q' ++ [' '])) ++ '\x7b' :: tail)))) =
      some ((n0 :: nm', ps, q0 :: (q' ++ [' '])), '\x7b' :: tail) := by
  have hn0 : jsIsSpace n0 = false := lower_not_ws (hnm n0 (by simp))
  have hq0ws : jsIsSpace q0 = false := lower_not_ws hq0
  have hpre : "function".data.isPrefixOf ("function".data ++ (' ' :: n0 ::
      (nm' ++ '(' :: (ps ++ ')' :: ' ' ::
        ((q0 :: (q' ++ [' '])) ++ '\x7b' :: tail))))) = true :=
    isPrefixOf_append_self _ _
  simp only [tryFn]
  rw [if_pos hpre]
  have e1 : ("function".data ++ (' ' :: n0 :: (nm' ++ '(' :: (ps ++ ')' :: ' ' ::
      ((q0 :: (q' ++ [' '])) ++ '\x7b' :: tail))))).drop 8 =
      ' ' :: n0 :: (nm' ++ '(' :: (ps ++ ')' :: ' ' ::
        ((q0 :: (q' ++ [' '])) ++ '\x7b' :: tail))) := by
    rw [show (8 : Nat) = ("function".data).length from rfl]
    exact List.drop_left _ _
  rw [e1]
  have e2 : List.takeWhile jsIsSpace (' ' :: n0 :: (nm' ++ '(' :: (ps ++ ')' :: ' ' ::
      ((q0 :: (q' ++ [' '])) ++ '\x7b' :: tail)))) = [' '] :=
    takeWhile_stop (show ∀ a ∈ ([' '] : List Char), jsIsSpace a = true from by decide) hn0
  have e3 : List.dropWhile jsIsSpace (' ' :: n0 :: (nm' ++ '(' :: (ps ++ ')' :: ' ' ::
      ((q0 :: (q' ++ [' '])) ++ '\x7b' :: tail)))) =
      n0 :: (nm' ++ '(' :: (ps ++ ')' :: ' ' ::
        ((q0 :: (q' ++ [' '])) ++ '\x7b' :: tail))) :=
    dropWhile_stop (show ∀ a ∈ ([' '] : List Char), jsIsSpace a = true from by decide) hn0
  rw [e2, e3]
  rw [if_neg (by decide : ¬(([' '] : List Char).isEmpty = true))]
  have hword : ∀ a ∈ n0 :: nm', isWordChar a = true := fun a ha => lower_word (hnm a ha)
  have e4 : List.takeWhile isWordChar (n0 :: (nm' ++ '(' :: (ps ++ ')' :: ' ' ::
      ((q0 :: (q' ++ [' '])) ++ '\x7b' :: tail)))) = n0 :: nm' :=
    takeWhile_stop hword (by decide)
  have e5 : List.dropWhile isWordChar (n0 :: (nm' ++ '(' :: (ps ++ ')' :: ' ' ::
      ((q0 :: (q' ++ [' '])) ++ '\x7b' :: tail)))) =
      '(' :: (ps ++ ')' :: ' ' :: ((q0 :: (q' ++ [' '])) ++ '\x7b' :: tail)) :=
    dropWhile_stop hword (by decide)
  rw [e4, e5]
  rw [if_neg (by simp : ¬((n0 :: nm').isEmpty = true))]
  have e6 : List.dropWhile jsIsSpace ('(' :: (ps ++ ')' :: ' ' ::
      ((q0 :: (q' ++ [' '])) ++ '\x7b' :: tail))) =
      '(' :: (ps ++ ')' :: ' ' :: ((q0 :: (q' ++ [' '])) ++ '\x7b' :: tail)) :=
    dropWhile_stop (show ∀ a ∈ ([] : List Char), jsIsSpace a = true from by simp)
      (by decide)
  rw [e6]
  dsimp only
  rw [if_pos rfl]
  have hpsb : ∀ a ∈ ps, (a != ')') = true := by
    intro a ha
    rcases hps a ha with h | rfl | rfl
    · exact bne_iff_ne.mpr (lower_ne h (by decide))
    · decide
    · decide
  have e7 : List.dropWhile (fun c => c != ')') (ps ++ ')' :: ' ' ::
      ((q0 :: (q' ++ [' '])) ++ '\x7b' :: tail)) =
      ')' :: ' ' :: ((q0 :: (q' ++ [' '])) ++ '\x7b' :: tail) :=
    dropWhile_stop hpsb (by decide)
  have e8 : List.takeWhile (fun c => c != ')') (ps ++ ')' :: ' ' ::
      ((q0 :: (q' ++ [' '])) ++ '\x7b' :: tail)) = ps :=
    takeWhile_stop hpsb (by decide)
  rw [e7, e8]
  dsimp only
  rw [if_pos rfl]
  have e9 : List.dropWhile jsIsSpace (' ' :: ((q0 :: (q' ++ [' '])) ++ '\x7b' :: tail)) =
      (q0 :: (q' ++ [' '])) ++ '\x7b' :: tail :=
    dropWhile_stop (show ∀ a ∈ ([' '] : List Char), jsIsSpace a = true from by decide)
      hq0ws
  rw [e9]
  have hqb : ∀ a ∈ q0 :: (q' ++ [' ']), (a != '\x7b' && a != ';') = true := by
    intro a ha
    rcases List.mem_cons.mp ha with rfl | h2
    · have hx : a ≠ '\x7b' := lower_ne hq0 (by decide)
      have hy : a ≠ ';' := lower_ne hq0 (by decide)
      simp [Bool.and_eq_true, bne_iff_ne, hx, hy]
    · rcases List.mem_append.mp h2 with h3 | h3
      · rcases hq a (List.mem_cons_of_mem q0 h3) with hl | rfl
        · have hx : a ≠ '\x7b' := lower_ne hl (by decide)
          have hy : a ≠ ';' := lower_ne hl (by decide)
          simp [Bool.and_eq_true, bne_iff_ne, hx, hy]
        · decide
      · simp at h3
        subst h3
        decide
  have e10 : List.takeWhile (fun c => c != '\x7b' && c != ';')
      ((q0 :: (q' ++ [' '])) ++ '\x7b' :: tail) = q0 :: (q' ++ [' ']) :=
    takeWhile_stop hqb (by decide)
  have e11 : List.dropWhile (fun c => c != '\x7b' && c != ';')
      ((q0 :: (q' ++ [' '])) ++ '\x7b' :: tail) = '\x7b' :: tail :=
    dropWhile_stop hqb (by decide)
  rw [e10, e11]

theorem visMut_chars (v : SrcVis) (m : SrcMut) :
    ∀ c ∈ (renderVis v ++ renderMut m).data, c.isLower = true ∨ c = ' ' := by
  cases v <;> cases m <;> decide

theorem visMut_head (v : SrcVis) (m : SrcMut) :
    ∃ q0 q', (renderVis v ++ renderMut m).data = q0 :: q' ∧ q0.isLower = true := by
  cases v <;> cases m <;> exact ⟨_, _, rfl, by decide⟩

theorem jsJoin_chars {sep : String} {l : List String} {c : Char}
    (h : c ∈ (jsJoin sep l).data) : c ∈ sep.data ∨ ∃ s ∈ l, c ∈ s.data := by
  induction l with
  | nil => simp [jsJoin] at h
  | cons a t ih =>
    cases t with
    | nil =>
      right
      exact ⟨a, by simp, by simpa [jsJoin] using h⟩
    | cons b t' =>
      rw [show jsJoin sep (a :: b :: t') = a ++ sep ++ jsJoin sep (b :: t') from rfl,
        String.data_append, String.data_append] at h
      rcases List.mem_append.mp h with h1 | h1
      · rcases List.mem_append.mp h1 with h2 | h2
        · exact Or.inr ⟨a, by simp, h2⟩
        · exact Or.inl h2
      · rcases ih h1 with h2 | h2
        · exact Or.inl h2
        · obtain ⟨s, hs, hcs⟩ := h2
          exact Or.inr ⟨s, by simp [hs], hcs⟩

theorem renderParams_chars {ps : List (String × String)}
    (hps : ∀ p ∈ ps, goodIdent p.1 ∧ goodIdent p.2) :
    ∀ c ∈ (renderParams ps).data, c.isLower = true ∨ c = ' ' ∨ c = ',' := by
  intro c hc
  have hc' : c ∈ (jsJoin ", " (ps.map renderParam)).data := hc
  rcases jsJoin_chars hc' with h | h
  · have hm : c ∈ [',', ' '] := by simpa using h
    simp at hm
    rcases hm with rfl | rfl
    · exact Or.inr (Or.inr rfl)
    · exact Or.inr (Or.inl rfl)
  · obtain ⟨s, hs, hcs⟩ := h
    obtain ⟨p, hp, rfl⟩ := List.mem_map.mp hs
    rw [show renderParam p = p.1 ++ " " ++ p.2 from rfl,
      String.data_append, String.data_append] at hcs
    rcases List.mem_append.mp hcs with h1 | h1
    · rcases List.mem_append.mp h1 with h2 | h2
      · exact Or.inl ((hps p hp).1.2 c h2)
      · have hsp : c = ' ' := by simpa using h2
        exact Or.inr (Or.inl hsp)
    · exact Or.inl ((hps p hp).2.2 c h1)

theorem fnScan_decl (d : SrcFunDecl) (hgd : goodDecl d) (follow : List Char) :
    fnScan ((renderFunDecl d).data ++ follow) = entryOf d :: fnScan follow := by
  obtain ⟨⟨hne, hlow⟩, hparams⟩ := hgd
  cases hnd : d.name.data with
  | nil => exact absurd hnd hne
  | cons n0 nm' =>
    obtain ⟨q0, q', hqd, hq0l⟩ := visMut_head d.visibility d.mutability
    have hqall : ∀ c ∈ q0 :: q', c.isLower = true ∨ c = ' ' :=
      hqd ▸ visMut_chars d.visibility d.mutability
    have hnm : ∀ c ∈ n0 :: nm', c.isLower = true := hnd ▸ hlow
    have hqd' : (renderVis d.visibility).data ++ (renderMut d.mutability).data =
        q0 :: q' := by
      rw [← String.data_append]
      exact hqd
    have hform : (renderFunDecl d).data ++ follow =
        ' ' :: ' ' :: ' ' :: ' ' :: ("function".data ++ ' ' :: n0 :: (nm' ++ '(' ::
          ((renderParams d.params).data ++ ')' :: ' ' ::
            ((q0 :: (q' ++ [' '])) ++ '\x7b' ::
              ('\n' :: ' ' :: ' ' :: ' ' :: ' ' :: '\x7d' :: '\n' :: follow))))) := by
      simp only [renderFunDecl, String.data_append]
      rw [hnd]
      simp only [show "    function ".data =
          ' ' :: ' ' :: ' ' :: ' ' :: 'f' :: 'u' :: 'n' :: 'c' :: 't' :: 'i' :: 'o' ::
            'n' :: ' ' :: ([] : List Char) from rfl,
        show "(".data = ['('] from rfl,
        show ") ".data = [')', ' '] from rfl,
        show " \x7b\n    \x7d\n".data =
          [' ', '\x7b', '\n', ' ', ' ', ' ', ' ', '\x7d', '\n'] from rfl,
        show "function".data =
          'f' :: 'u' :: 'n' :: 'c' :: 't' :: 'i' :: 'o' :: 'n' :: ([] : List Char)
          from rfl,
        List.cons_append, List.nil_append, List.append_assoc]
      rw [← List.append_assoc (renderVis d.visibility).data
        (renderMut d.mutability).data]
      rw [hqd']
      simp only [List.cons_append, List.nil_append, List.append_assoc]
    rw [hform]
    rw [fnScan_cons_ne _ (by decide), fnScan_cons_ne _ (by decide),
      fnScan_cons_ne _ (by decide), fnScan_cons_ne _ (by decide)]
    rw [fnScan_match (tryFn_render n0 nm' (renderParams d.params).data q0 q'
      ('\n' :: ' ' :: ' ' :: ' ' :: ' ' :: '\x7d' :: '\n' :: follow)
      hnm (renderParams_chars hparams) hq0l hqall)]
    rw [fnScan_cons_ne _ (by decide), fnScan_cons_ne _ (by decide),
      fnScan_cons_ne _ (by decide), fnScan_cons_ne _ (by decide),
      fnScan_cons_ne _ (by decide), fnScan_cons_ne _ (by decide),
      fnScan_cons_ne _ (by decide), fnScan_cons_ne _ (by decide)]
    simp only [entryOf]
    rw [hnd, hqd]
    rfl

theorem fnScan_renders (decls : List SrcFunDecl) (hd : ∀ d ∈ decls, goodDecl d)
    (tail : List Char) (htail : ∀ c ∈ tail, ¬ c = 'f') :
    fnScan ((strConcat (decls.map renderFunDecl)).data ++ tail) =
      decls.map entryOf := by
  induction decls with
  | nil => simpa using fnScan_all_skip htail
  | cons d rest ih =>
    rw [show strConcat ((d :: rest).map renderFunDecl) =
      renderFunDecl d ++ strConcat (rest.map renderFunDecl) from rfl]
    rw [String.data_append, List.append_assoc]
    rw [fnScan_decl d (hd d (List.mem_cons_self d rest)) _]
    rw [ih fun x hx => hd x (List.mem_cons_of_mem d hx)]
    rfl

theorem fnScan_renderContract (cname : String) (decls : List SrcFunDecl)
    (hcf : ∀ c ∈ cname.data, ¬ c = 'f') (hd : ∀ d ∈ decls, goodDecl d) :
    fnScan (renderContract cname decls).data = decls.map entryOf := by
  have hform : (renderContract cname decls).data =
      ("contract ".data ++ (cname.data ++ " \x7b\n".data)) ++
        ((strConcat (decls.map renderFunDecl)).data ++ "\x7d\n".data) := by
    simp [renderContract, String.data_append]
  have hpre : ∀ c ∈ "contract ".data ++ (cname.data ++ " \x7b\n".data), ¬ c = 'f' := by
    intro c hc
    rcases List.mem_append.mp hc with h | h
    · have hlit : ∀ c ∈ "contract ".data, ¬ c = 'f' := by decide
      exact hlit c h
    · rcases List.mem_append.mp h with h2 | h2
      · exact hcf c h2
      · have hlit : ∀ c ∈ " \x7b\n".data, ¬ c = 'f' := by decide
        exact hlit c h2
  rw [hform, fnScan_append_skip hpre]
  exact fnScan_renders decls hd _ (by decide)

theorem fnSigOfEntry_entryOf (d : SrcFunDecl)
    (h1 : d.visibility ≠ SrcVis.vprivate) (h2 : d.visibility ≠ SrcVis.vinternal) :
    ∃ sig, fnSigOfEntry (entryOf d) = some sig ∧ sig.name = d.name := by
  have hpriv : hasWord "private" (String.mk
      ((renderVis d.visibility ++ renderMut d.mutability).data ++ [' '])) = false := by
    cases hv : d.visibility
    case vprivate => exact absurd hv h1
    all_goals cases d.mutability <;> decide
  have hint : hasWord "internal" (String.mk
      ((renderVis d.visibility ++ renderMut d.mutability).data ++ [' '])) = false := by
    cases hv : d.visibility
    case vinternal => exact absurd hv h2
    all_goals cases d.mutability <;> decide
  refine ⟨FunctionSig.mk (String.mk d.name.data)
    (parseParams (String.mk (renderParams d.params).data))
    (parseMutability (String.mk
      ((renderVis d.visibility ++ renderMut d.mutability).data ++ [' '])))
    (parseReturns (String.mk
      ((renderVis d.visibility ++ renderMut d.mutability).data ++ [' ']))),
    ?_, rfl⟩
  simp only [fnSigOfEntry, entryOf]
  rw [hpriv, hint]
  simp

theorem addGetters_ext :
    ∀ (vars : List (List Char × List Char)) (fns : List FunctionSig),
      ∃ ext, addGetters fns vars = fns ++ ext := by
  intro vars
  induction vars with
  | nil =>
    intro fns
    exact ⟨[], by simp [addGetters]⟩
  | cons v rest ih =>
    intro fns
    obtain ⟨g1, nm⟩ := v
    by_cases hany : (fns.any fun f => f.name == String.mk nm) = true
    · obtain ⟨ext, h⟩ := ih fns
      refine ⟨ext, ?_⟩
      rw [show addGetters fns ((g1, nm) :: rest) =
        if fns.any (fun f => f.name == String.mk nm) then addGetters fns rest
        else addGetters (fns ++ [getterSig g1 nm]) rest from rfl]
      rw [if_pos hany]
      exact h
    · obtain ⟨ext, h⟩ := ih (fns ++ [getterSig g1 nm])
      refine ⟨[getterSig g1 nm] ++ ext, ?_⟩
      rw [show addGetters fns ((g1, nm) :: rest) =
        if fns.any (fun f => f.name == String.mk nm) then addGetters fns rest
        else addGetters (fns ++ [getterSig g1 nm]) rest from rfl]
      rw [if_neg hany]
      rw [h, List.append_assoc]

/-- **C9**: on a conventionally rendered source — a `contract` header (whose
name avoids the letter `f`) followed by one declaration per function, with
lowercase identifiers and an explicit visibility keyword — every function
declared without `private` or `internal` visibility appears, by name, among
the `FunctionSig` entries returned by `parseContractInterface`: the extracted
function set is a superset of the declared non-private functions. -/
theorem parseContractInterface_superset (cname : String) (decls : List SrcFunDecl)
    (hcf : ∀ c ∈ cname.data, ¬ c = 'f')
    (hd : ∀ d ∈ decls, goodDecl d)
    (d : SrcFunDecl) (hmem : d ∈ decls)
    (h1 : d.visibility ≠ SrcVis.vprivate) (h2 : d.visibility ≠ SrcVis.vinternal) :
    d.name ∈ (parseContractInterface (renderContract cname decls)).functions.map
      (fun f => f.name) := by
  obtain ⟨sig, hsig, hname⟩ := fnSigOfEntry_entryOf d h1 h2
  obtain ⟨ext, hext⟩ := addGetters_ext (varScan (renderContract cname decls).data)
    ((fnScan (renderContract cname decls).data).filterMap fnSigOfEntry)
  have hmemf : sig ∈ (fnScan (renderContract cname decls).data).filterMap
      fnSigOfEntry := by
    rw [fnScan_renderContract cname decls hcf hd]
    exact List.mem_filterMap.mpr ⟨entryOf d, List.mem_map_of_mem _ hmem, hsig⟩
  have hfun : (parseContractInterface (renderContract cname decls)).functions =
      (fnScan (renderContract cname decls).data).filterMap fnSigOfEntry ++ ext := by
    simp only [parseContractInterface]
    exact hext
  rw [hfun, List.map_append]
  exact List.mem_append_left _ (hname ▸ List.mem_map_of_mem (fun f => f.name) hmemf)

/-- Witness for C9 at a concrete three-function contract. -/
theorem parseContractInterface_superset_witness :
    "getbal" ∈ (parseContractInterface (renderContract "vault" declsC9)).functions.map
      (fun f => f.name) :=
  parseContractInterface_superset "vault" declsC9 (by decide) (by decide)
    declC9 (by decide) (by decide) (by decide)

end Prophet
